import Mathlib

/-!
# Verification of the topic clustering and incremental assignment engine

This file gives a shallow embedding, in Lean 4, of the core of the
`inha-25-2-capstone/backend` repository: the batch topic clusterer
(`src/services/clustering.py`), the incremental assigner
(`src/services/incremental_assignment.py`), the embedding vector utilities
(`src/utils/embeddings.py`), and the batch-completion coordination protocol
(`src/workers/tasks.py` together with the counter initialization in
`scripts/run_full_pipeline.py`).  Machine floats are modelled as real
numbers; database tables are modelled as explicit Lean structures and the
SQL statements as pure state transformations, with the uniqueness and
cascade constraints taken from the schema migrations
(`database/migrations/versions/1fdac3e26595_initial_schema.py` and
`6659f7177381_add_centroid_and_pending_tables.py`).

Modelling notes:
* `incremental_assignment.py` calls `get_db_connection()` in
  `assign_article_to_topic`, `add_to_pending` and `update_topic_centroids`
  without importing or defining it (the module's only project import,
  line 11, is from `src.utils.embeddings`), so each of these methods
  raises `NameError` before opening a connection or issuing any SQL; the
  embedding models them as returning the unchanged database together with
  the raised error, and an assigner run as aborting at its first write
  call.
* `sklearn.cluster.AgglomerativeClustering` is an external library; it is
  modelled as an oracle function parameter receiving exactly the
  constructor arguments the source passes, and the hierarchical-branch
  theorems assume of it only what `sklearn` documents (a `fit_predict`
  with `n_clusters = k` returns one label per sample with `k` distinct
  labels when `k` is between 1 and the sample count).
* SQL `ORDER BY` clauses and Python's stable `sorted` are modelled with
  `List.insertionSort`, which is stable; iteration order that the source
  leaves unspecified (`list(set(...))`) is modelled as first-insertion
  order.
-/

namespace Spec2Proof

noncomputable section

/-! ## Part 1: definitions -/

/-! ### Embedding vectors (`src/utils/embeddings.py`) -/

/-- Embedding vector of dimension `d` (numpy 1-d array of floats). -/
def Vec (d : ℕ) : Type := Fin d → ℝ

instance (d : ℕ) : Add (Vec d) := ⟨fun v w i => v i + w i⟩

instance (d : ℕ) : Zero (Vec d) := ⟨fun _ => 0⟩

instance (d : ℕ) : SMul ℝ (Vec d) := ⟨fun c v i => c * v i⟩

/-- `np.dot` of two vectors. -/
def dotV {d : ℕ} (v w : Vec d) : ℝ := ∑ i, v i * w i

/-- `np.linalg.norm`: the L2 norm. -/
def normV {d : ℕ} (v : Vec d) : ℝ := Real.sqrt (dotV v v)

/-- `np.clip(x, -1.0, 1.0)`. -/
def clip1 (x : ℝ) : ℝ := min (max x (-1)) 1

/-- `normalize_vector` (embeddings.py:33–52): divide by the L2 norm,
    returning the vector unchanged when the norm is zero. -/
def normalize_vector {d : ℕ} (v : Vec d) : Vec d :=
  if normV v = 0 then v else (normV v)⁻¹ • v

/-- `calculate_cosine_similarity` (embeddings.py:55–84): dot product of the
    two normalized vectors, clipped into `[-1, 1]`. -/
def calculate_cosine_similarity {d : ℕ} (v w : Vec d) : ℝ :=
  clip1 (dotV (normalize_vector v) (normalize_vector w))

/-- `batch_normalize_vectors` (embeddings.py:87–113): stack, compute norms,
    replace zero norms by 1 (`np.where(norms == 0, 1, norms)`), divide. -/
def batch_normalize_vectors {d : ℕ} (l : List (Vec d)) : List (Vec d) :=
  l.map fun v => (if normV v = 0 then 1 else normV v)⁻¹ • v

/-- Componentwise mean of a list of vectors (`np.mean(embeddings, axis=0)`). -/
def meanV {d : ℕ} (l : List (Vec d)) : Vec d :=
  fun i => (l.map fun v => v i).sum / (l.length : ℝ)

/-- Raw division by the norm with no zero guard, as written inline at
    clustering.py:364 (`centroid / np.linalg.norm(centroid)`),
    clustering.py:242/247 and incremental_assignment.py:286. -/
def divNorm {d : ℕ} (v : Vec d) : Vec d := (normV v)⁻¹ • v

/-! ### Batch clusterer (`src/services/clustering.py`) -/

/-- An article dict as carried through `TopicClusterer`
    (clustering.py:66–76): id, title, embedding (summary is only passed to
    the external title generator and is dropped here). -/
structure ClusterArticle (d : ℕ) where
  articleId : ℕ
  title : String
  emb : Vec d

/-- A dummy article used as the (never reached) default of safe list
    indexing. -/
def dummyArticle (d : ℕ) : ClusterArticle d := ⟨0, "", 0⟩

/-- `np.argmax` on a list of floats: the index of the first occurrence of
    the maximum (helper state: next index, best index, best value). -/
def argmaxAux : List ℝ → ℕ → ℕ → ℝ → ℕ
  | [], _, bi, _ => bi
  | x :: xs, i, bi, bv => if bv < x then argmaxAux xs (i + 1) i x else argmaxAux xs (i + 1) bi bv

/-- `np.argmax` (first index of the maximum; `0` on the empty list). -/
def argmaxIdx : List ℝ → ℕ
  | [] => 0
  | x :: xs => argmaxAux xs 1 0 x

/-- `TopicClusterer.select_representative_article` (clustering.py:195–225):
    for a single-article cluster, that article; otherwise the article whose
    normalized embedding has the largest dot product with the normalized
    centroid (first one under ties, per `np.argmax`). -/
def select_representative_article {d : ℕ} (cluster : List (ClusterArticle d)) : ℕ :=
  if cluster.length = 1 then (cluster.headD (dummyArticle d)).articleId
  else
    let centroid := meanV (cluster.map (·.emb))
    let centroidN := normalize_vector centroid
    let embsN := batch_normalize_vectors (cluster.map (·.emb))
    let sims := embsN.map fun e => dotV e centroidN
    ((cluster.getD (argmaxIdx sims) (dummyArticle d)).articleId)

/-- `TopicClusterer.calculate_similarity_scores` (clustering.py:227–253):
    for each member, the dot product of the member's and the
    representative's embeddings, each divided by its own norm (raw
    division, no zero guard, exactly as in the source). -/
def calculate_similarity_scores {d : ℕ} (cluster : List (ClusterArticle d))
    (representativeEmbedding : Vec d) : List (ℕ × ℝ) :=
  cluster.map fun a =>
    (a.articleId, dotV (divNorm a.emb) (divNorm representativeEmbedding))

/-- One step of collecting distinct labels in first-occurrence order. -/
def collectLabel (acc : List ℤ) (b : ℤ) : List ℤ :=
  if b ∈ acc then acc else acc ++ [b]

/-- Distinct labels in order of first occurrence, as produced by iterating
    a Python dict built with `for article, label in zip(articles, labels)`
    (clustering.py:275–279); its length is `len(set(labels))`
    (clustering.py:152). -/
def uniqueLabels (L : List ℤ) : List ℤ := L.foldl collectLabel []

/-- Grouping of `zip(articles, labels)` by label, in first-occurrence order
    of the labels, preserving article order inside each group
    (clustering.py:275–279). -/
def clustersOf {d : ℕ} (articles : List (ClusterArticle d)) (labels : List ℤ) :
    List (ℤ × List (ClusterArticle d)) :=
  let pairs := articles.zip labels
  (uniqueLabels labels).map fun lb =>
    (lb, (pairs.filter fun p => decide (p.2 = lb)).map (·.1))

/-- Constructor arguments the source passes to
    `sklearn.cluster.AgglomerativeClustering` (clustering.py:144–177). -/
structure AggParams where
  nClusters : Option ℕ
  distanceThreshold : Option ℝ
  metric : String
  linkage : String

/-- The `'hierarchical'` branch of `TopicClusterer.cluster_articles`
    (clustering.py:129–177): normalize the embeddings, run
    threshold-driven average-linkage cosine clustering, and if the number
    of distinct labels found falls below `minClusters` (resp. above
    `maxClusters`) re-run forcing `n_clusters` to that bound.  `fit` is the
    external `AgglomerativeClustering(...).fit_predict` oracle. -/
def cluster_articles_hierarchical {d : ℕ}
    (fit : AggParams → List (Vec d) → List ℤ)
    (distanceThreshold : ℝ) (minClusters maxClusters : ℕ)
    (articles : List (ClusterArticle d)) : List ℤ :=
  let embsN := batch_normalize_vectors (articles.map (·.emb))
  let labels := fit ⟨none, some distanceThreshold, "cosine", "average"⟩ embsN
  let nFound := (uniqueLabels labels).length
  if nFound < minClusters then
    fit ⟨some minClusters, none, "cosine", "average"⟩ embsN
  else if maxClusters < nFound then
    fit ⟨some maxClusters, none, "cosine", "average"⟩ embsN
  else labels

/-- The input handed to the clustering oracle: the normalized embeddings
    (clustering.py:106–110). -/
def aggInput {d : ℕ} (articles : List (ClusterArticle d)) : List (Vec d) :=
  batch_normalize_vectors (articles.map (·.emb))

/-- The first, threshold-driven `fit_predict` call of the hierarchical
    branch (clustering.py:144–150). -/
def fitThreshold {d : ℕ} (fit : AggParams → List (Vec d) → List ℤ) (dt : ℝ)
    (articles : List (ClusterArticle d)) : List ℤ :=
  fit ⟨none, some dt, "cosine", "average"⟩ (aggInput articles)

/-- A forced re-run with `n_clusters = k` (clustering.py:160–165 and
    172–177). -/
def fitForced {d : ℕ} (fit : AggParams → List (Vec d) → List ℤ) (k : ℕ)
    (articles : List (ClusterArticle d)) : List ℤ :=
  fit ⟨some k, none, "cosine", "average"⟩ (aggInput articles)

/-- Constructor parameters of `TopicClusterer` (clustering.py:26–35). -/
structure ClustererParams where
  nTopics : ℕ
  minArticlesPerTopic : ℕ

/-- The clusters that survive the small-cluster filter
    (clustering.py:282–286). -/
def validClusters {d : ℕ} (p : ClustererParams) (articles : List (ClusterArticle d))
    (labels : List ℤ) : List (ℤ × List (ClusterArticle d)) :=
  (clustersOf articles labels).filter fun c => decide (p.minArticlesPerTopic ≤ c.2.length)

/-- Descending-by-size order used by
    `sorted(valid_clusters.items(), key=lambda x: len(x[1]), reverse=True)`
    (clustering.py:293–297); `insertionSort` with this relation is stable,
    matching Python's stable sort. -/
def bySizeDesc {d : ℕ} (a b : ℤ × List (ClusterArticle d)) : Prop :=
  b.2.length ≤ a.2.length

instance {d : ℕ} : DecidableRel (bySizeDesc (d := d)) := fun a b =>
  inferInstanceAs (Decidable (b.2.length ≤ a.2.length))

instance {d : ℕ} : IsTotal (ℤ × List (ClusterArticle d)) bySizeDesc :=
  ⟨fun a b => le_total b.2.length a.2.length⟩

instance {d : ℕ} : IsTrans (ℤ × List (ClusterArticle d)) bySizeDesc :=
  ⟨fun _ _ _ hab hbc => le_trans hbc hab⟩

/-- The sorted, truncated cluster list of clustering.py:293–297: valid
    clusters by size descending, first `n_topics` kept, the rest dropped. -/
def sortedClusters {d : ℕ} (p : ClustererParams) (articles : List (ClusterArticle d))
    (labels : List ℤ) : List (ℤ × List (ClusterArticle d)) :=
  ((validClusters p articles labels).insertionSort bySizeDesc).take p.nTopics

/-! ### Database rows and state -/

/-- A row of the `topic` table, restricted to the columns this core reads
    or writes. -/
structure TopicRow (d : ℕ) where
  topicId : ℕ
  date : ℤ
  title : String
  mainArticleId : ℕ
  rank : Option ℕ
  articleCount : ℕ
  clusterScore : ℝ
  centroid : Option (Vec d)
  isActive : Bool
  lastUpdated : ℤ

/-- A row of `topic_article_mapping`. -/
structure MappingRow where
  topicId : ℕ
  articleId : ℕ
  similarity : ℝ
  date : ℤ

/-- A row of `pending_articles`. -/
structure PendingRow where
  articleId : ℕ
  reason : String
  maxSimilarity : ℝ
  addedAt : ℤ

/-- A row of `article`, restricted to the columns this core reads. -/
structure ArticleRow (d : ℕ) where
  articleId : ℕ
  title : String
  embedding : Option (Vec d)
  newsDate : ℤ
  publishedAt : ℤ

/-- The database state visible to the clustering/assignment core. -/
structure DBState (d : ℕ) where
  articles : List (ArticleRow d)
  topics : List (TopicRow d)
  mappings : List MappingRow
  pending : List PendingRow

/-! ### `TopicClusterer.save_topics_to_db` (clustering.py:255–425) -/

/-- The rows produced for one cluster inside the insert loop
    (clustering.py:349–422): pick the representative, recover its
    embedding (`next(a for a in cluster_articles if ...)`), compute the
    re-normalized centroid (raw division, line 364), resolve the title
    (generated title, falling back to the representative's own title), and
    build the topic row (`rank`, `article_count = 0`, `is_active = TRUE`)
    plus one mapping row per member with its similarity score. -/
def buildTopic {d : ℕ} (date : ℤ) (silhouette : ℝ) (titles : ℤ → Option String)
    (now : ℤ) (tid : ℕ) (rank : ℕ) (c : ℤ × List (ClusterArticle d)) :
    TopicRow d × List MappingRow :=
  let cluster := c.2
  let mainArticleId := select_representative_article cluster
  let representative :=
    (cluster.find? fun a => decide (a.articleId = mainArticleId)).getD (dummyArticle d)
  let centroid := meanV (cluster.map (·.emb))
  let centroidN := divNorm centroid
  let topicTitle := (titles c.1).getD representative.title
  let scores := calculate_similarity_scores cluster representative.emb
  (⟨tid, date, topicTitle, mainArticleId, some rank, 0, silhouette, some centroidN, true, now⟩,
   scores.map fun s => ⟨tid, s.1, s.2, date⟩)

/-- A SQL statement of the persistence transaction. -/
inductive DbOp (d : ℕ) where
  | deleteTopicsOfDate (date : ℤ)
  | insertTopic (row : TopicRow d)
  | insertMapping (row : MappingRow)

/-- Effect of one statement.  `DELETE FROM topic WHERE topic_date = %s`
    also removes the mappings of the deleted topics through the
    `ON DELETE CASCADE` of `fk_mapping_topic`
    (1fdac3e26595_initial_schema.py:107). -/
def applyOp {d : ℕ} (db : DBState d) : DbOp d → DBState d
  | .deleteTopicsOfDate date =>
      let deletedIds := (db.topics.filter fun t => decide (t.date = date)).map (·.topicId)
      { db with
          topics := db.topics.filter fun t => decide ¬(t.date = date),
          mappings := db.mappings.filter fun m => decide ¬(m.topicId ∈ deletedIds) }
  | .insertTopic row => { db with topics := db.topics ++ [row] }
  | .insertMapping row => { db with mappings := db.mappings ++ [row] }

/-- `get_db_connection` semantics (src/models/database.py:60–123): the
    statements of the `with` block run on one connection; normal exit
    commits (`failAt = none`), an exception after any prefix of the
    statements rolls the whole transaction back (`failAt = some k`),
    leaving the database unchanged. -/
def runTransaction {d : ℕ} (db : DBState d) (ops : List (DbOp d)) :
    Option ℕ → DBState d
  | none => ops.foldl applyOp db
  | some _ => db

/-- The statement list of the persistence transaction
    (clustering.py:339–422): delete the date's topics (cascading to their
    mappings), then for each kept cluster insert the topic row and its
    mapping rows.  Topic ids are drawn from the `BIGSERIAL` sequence
    starting at `startId`; ranks are `enumerate(sorted_clusters, start=1)`. -/
def save_topics_ops {d : ℕ} (p : ClustererParams) (articles : List (ClusterArticle d))
    (labels : List ℤ) (date : ℤ) (silhouette : ℝ) (titles : ℤ → Option String)
    (now : ℤ) (startId : ℕ) : List (DbOp d) :=
  let sc := sortedClusters p articles labels
  DbOp.deleteTopicsOfDate date ::
    (sc.enum.flatMap fun ic =>
      let t := buildTopic date silhouette titles now (startId + ic.1) (ic.1 + 1) ic.2
      DbOp.insertTopic t.1 :: t.2.map DbOp.insertMapping)

/-- The insert statements generated by one list of built topics (each
    topic row followed by its mapping rows). -/
def insertOpsOf {d : ℕ} (l : List (TopicRow d × List MappingRow)) : List (DbOp d) :=
  l.flatMap fun t => DbOp.insertTopic t.1 :: t.2.map DbOp.insertMapping

/-- The topic rows inserted by `save_topics_to_db` (clustering.py:378–394):
    one per kept cluster, ids from the sequence, ranks from
    `enumerate(..., start=1)`. -/
def newTopicRows {d : ℕ} (p : ClustererParams) (articles : List (ClusterArticle d))
    (labels : List ℤ) (date : ℤ) (silhouette : ℝ) (titles : ℤ → Option String)
    (now : ℤ) (startId : ℕ) : List (TopicRow d) :=
  (sortedClusters p articles labels).enum.map fun ic =>
    (buildTopic date silhouette titles now (startId + ic.1) (ic.1 + 1) ic.2).1

/-- The mapping rows inserted by `save_topics_to_db`
    (clustering.py:408–420). -/
def newMappingRows {d : ℕ} (p : ClustererParams) (articles : List (ClusterArticle d))
    (labels : List ℤ) (date : ℤ) (silhouette : ℝ) (titles : ℤ → Option String)
    (now : ℤ) (startId : ℕ) : List MappingRow :=
  (sortedClusters p articles labels).enum.flatMap fun ic =>
    (buildTopic date silhouette titles now (startId + ic.1) (ic.1 + 1) ic.2).2

/-- `TopicClusterer.save_topics_to_db` (clustering.py:255–425): group and
    filter the clusters, return without writing when none is valid,
    otherwise run the persistence transaction; returns the new state and
    the created topic ids.  `failAt` is the exception point inside the
    transaction, if any. -/
def save_topics_to_db {d : ℕ} (p : ClustererParams) (db : DBState d)
    (articles : List (ClusterArticle d)) (labels : List ℤ) (date : ℤ)
    (silhouette : ℝ) (titles : ℤ → Option String) (now : ℤ) (startId : ℕ)
    (failAt : Option ℕ) : DBState d × List ℕ :=
  if (validClusters p articles labels).isEmpty then (db, [])
  else
    let sc := sortedClusters p articles labels
    (runTransaction db (save_topics_ops p articles labels date silhouette titles now startId)
        failAt,
     (List.range sc.length).map (startId + ·))

/-! ### Incremental assigner (`src/services/incremental_assignment.py`) -/

/-- An active topic as loaded by `get_active_topics`
    (incremental_assignment.py:90–134): id and centroid (rows without a
    centroid are excluded by the query). -/
structure ActiveTopic (d : ℕ) where
  topicId : ℕ
  centroid : Vec d

/-- `ORDER BY topic_rank` (ascending, SQL `NULLS LAST`). -/
def rankKey (o : Option ℕ) : WithTop ℕ :=
  match o with
  | none => ⊤
  | some n => (n : WithTop ℕ)

/-- Row order of the `get_active_topics` query. -/
def byRankAsc {d : ℕ} (a b : TopicRow d) : Prop := rankKey a.rank ≤ rankKey b.rank

instance {d : ℕ} : DecidableRel (byRankAsc (d := d)) := fun a b =>
  inferInstanceAs (Decidable (rankKey a.rank ≤ rankKey b.rank))

/-- `IncrementalAssigner.get_active_topics`
    (incremental_assignment.py:90–134): active topics of the date that
    have a centroid, ordered by rank. -/
def get_active_topics {d : ℕ} (db : DBState d) (date : ℤ) : List (ActiveTopic d) :=
  (((db.topics.filter fun t =>
      decide (t.date = date) && t.isActive && t.centroid.isSome).insertionSort
        byRankAsc).map
    fun t => ⟨t.topicId, t.centroid.getD 0⟩)

/-- `IncrementalAssigner.get_new_articles`
    (incremental_assignment.py:38–88): articles with an embedding,
    published inside the lookback window, and not yet mapped to any topic
    (`LEFT JOIN topic_article_mapping ... WHERE tam.article_id IS NULL`).
    The query's `ORDER BY published_at DESC` only permutes iterations that
    are independent of one another and is not modelled. -/
def get_new_articles {d : ℕ} (db : DBState d) (now sinceMinutes : ℤ) :
    List (ArticleRow d) :=
  db.articles.filter fun a =>
    a.embedding.isSome && decide (now - sinceMinutes ≤ a.publishedAt) &&
      !(db.mappings.any fun m => decide (m.articleId = a.articleId))

/-- `IncrementalAssigner.find_best_topic`
    (incremental_assignment.py:137–172): running maximum starting from
    `(None, 0.0)` with a strict `>` update, then the inclusive threshold
    check `best_similarity >= self.similarity_threshold`. -/
def find_best_topic {d : ℕ} (threshold : ℝ) (emb : Vec d)
    (activeTopics : List (ActiveTopic d)) : Option ℕ × ℝ :=
  match activeTopics with
  | [] => (none, 0)
  | _ =>
    let best := activeTopics.foldl
      (fun acc t =>
        let s := calculate_cosine_similarity emb t.centroid
        if acc.2 < s then (some t.topicId, s) else acc)
      ((none : Option ℕ), (0 : ℝ))
    if threshold ≤ best.2 then best else (none, best.2)

/-- Python truthiness of `if best_topic_id:`
    (incremental_assignment.py:365): `None` and `0` are falsy. -/
def truthy : Option ℕ → Bool
  | none => false
  | some n => decide ¬(n = 0)

/-- A Python `NameError`: an unresolvable name was evaluated at run time.
    `incremental_assignment.py` never imports `get_db_connection` — its
    only project import (line 11) is
    `from src.utils.embeddings import parse_embedding_string,
    calculate_cosine_similarity, normalize_vector` — yet
    `assign_article_to_topic` (line 190), `add_to_pending` (line 230) and
    `update_topic_centroids` (line 255) each open with
    `with get_db_connection() as conn:`, so each of them raises
    `NameError` before opening a connection or issuing any SQL. -/
inductive PyError
  | nameError (name : String)

/-- `IncrementalAssigner.assign_article_to_topic`
    (incremental_assignment.py:174–214): its first statement
    `with get_db_connection() as conn:` (line 190) raises `NameError`
    because the module never imports that name, so the
    `INSERT ... ON CONFLICT (topic_id, article_id) DO NOTHING` and the
    `UPDATE topic SET last_updated` of lines 193–212 are dead code: the
    method never returns normally and the database is unchanged. -/
def assign_article_to_topic {d : ℕ} (db : DBState d) (articleId topicId : ℕ)
    (score : ℝ) (date : ℤ) : DBState d × PyError :=
  (db, .nameError "get_db_connection")

/-- `IncrementalAssigner.add_to_pending`
    (incremental_assignment.py:216–246): its first statement
    `with get_db_connection() as conn:` (line 230) raises `NameError`, so
    the pending upsert of lines 232–244 is dead code: the method never
    returns normally and the database is unchanged. -/
def add_to_pending {d : ℕ} (db : DBState d) (articleId : ℕ) (reason : String)
    (maxSimilarity : ℝ) : DBState d × PyError :=
  (db, .nameError "get_db_connection")

/-- `IncrementalAssigner.update_topic_centroids`
    (incremental_assignment.py:248–302): its first statement
    `with get_db_connection() as conn:` (line 255) raises `NameError`, so
    the member query and the centroid recompute of lines 256–299 are dead
    code: the method never returns normally, the assigner never writes any
    centroid, and the database is unchanged. -/
def update_topic_centroids {d : ℕ} (db : DBState d) (topicIds : List ℕ) :
    DBState d × PyError :=
  (db, .nameError "get_db_connection")

/-- The statistics dictionary of a `run_incremental_assignment` that
    completes (`'new_articles'`, `'assigned'`, `'pending'`). -/
structure RunStats where
  newArticles : ℕ
  assigned : ℕ
  pending : ℕ

/-- `IncrementalAssigner.run_incremental_assignment`
    (incremental_assignment.py:304–413).  The reads work —
    `get_new_articles` and `get_active_topics` use the
    constructor-supplied `self.conn` — and a run that finds no new article
    returns `{'new_articles': 0, 'assigned': 0, 'pending': 0}` having
    written nothing (lines 325–331).  Any other run reaches a write call
    for its first candidate article — `add_to_pending(..., 'no_topics',
    0.0)` when there is no active topic (line 344); otherwise, after the
    pure `find_best_topic` decision, `assign_article_to_topic` (line 366)
    or `add_to_pending(..., 'low_similarity', ...)` (line 381) — and every
    one of those calls raises `NameError` at the unimported
    `get_db_connection` (see `assign_article_to_topic`); nothing catches
    it, so the run aborts with the database unchanged whichever branch is
    taken: the threshold and date decide only which call raises first. -/
def run_incremental_assignment {d : ℕ} (threshold : ℝ) (db : DBState d)
    (date now sinceMinutes : ℤ) : DBState d × Except PyError RunStats :=
  if (get_new_articles db now sinceMinutes).isEmpty then (db, .ok ⟨0, 0, 0⟩)
  else (db, .error (.nameError "get_db_connection"))

/-! ### Batch-completion coordinator (`src/workers/tasks.py:154–196` and
    `scripts/run_full_pipeline.py:156–164`)

Two Redis keys per date: `ai_batch_completed:{D}` and
`ai_batch_total:{D}`.  The pipeline deletes the completed counter and sets
the total to the number of dispatched batches; each batch task, after
saving its results, runs `INCR` on the completed counter, reads the total,
and if `completed >= total` schedules one delayed clustering task
(`countdown=60`) and deletes both keys.  Each worker is modelled as a
five-step process executed atomically per step, interleaved arbitrarily.
-/

namespace Coordinator

/-- The per-date Redis keys. -/
structure RedisState where
  completed : Option ℕ
  total : Option ℕ

/-- `redis_client.incr`: missing key counts as 0; returns the new value. -/
def incrRedis (r : RedisState) : ℕ × RedisState :=
  let v := r.completed.getD 0 + 1
  (v, { r with completed := some v })

/-- Local state of one batch task inside the Redis-counter section
    (tasks.py:167–193).  Program counter:
    0 = about to `INCR` completed; 1 = about to `GET` total;
    2 = about to run the completion check; 3 = triggered, about to delete
    the completed key; 4 = about to delete the total key; 5 = finished
    having triggered; 6 = finished without triggering. -/
structure ProcState where
  pc : ℕ
  localCompleted : ℕ
  localTotal : Option ℕ

/-- Global state: the Redis keys, each worker's local state, and the list
    of `countdown` values of the scheduled clustering invocations. -/
structure CoordState (N : ℕ) where
  redis : RedisState
  procs : Fin N → ProcState
  scheduled : List ℕ

/-- One atomic step of worker `p` (a no-op once the worker finished). -/
def procStep {N : ℕ} (s : CoordState N) (p : Fin N) : CoordState N :=
  let ps := s.procs p
  match ps.pc with
  | 0 =>
      let r := incrRedis s.redis
      { s with redis := r.2,
               procs := Function.update s.procs p { ps with pc := 1, localCompleted := r.1 } }
  | 1 =>
      { s with procs := Function.update s.procs p { ps with pc := 2, localTotal := s.redis.total } }
  | 2 =>
      match ps.localTotal with
      | some t =>
          if t ≤ ps.localCompleted then
            { s with scheduled := s.scheduled ++ [60],
                     procs := Function.update s.procs p { ps with pc := 3 } }
          else { s with procs := Function.update s.procs p { ps with pc := 6 } }
      | none => { s with procs := Function.update s.procs p { ps with pc := 6 } }
  | 3 =>
      { s with redis := { s.redis with completed := none },
               procs := Function.update s.procs p { ps with pc := 4 } }
  | 4 =>
      { s with redis := { s.redis with total := none },
               procs := Function.update s.procs p { ps with pc := 5 } }
  | _ => s

/-- Initial state once the pipeline dispatched `N` batches
    (run_full_pipeline.py:156–164): completed counter deleted, total set
    to `N`, no worker has reported, nothing scheduled. -/
def initState (N : ℕ) : CoordState N :=
  ⟨⟨none, some N⟩, fun _ => ⟨0, 0, none⟩, []⟩

/-- Run a schedule (an arbitrary interleaving of worker steps). -/
def runSchedule {N : ℕ} (sched : List (Fin N)) : CoordState N :=
  sched.foldl procStep (initState N)

/-- A worker that has run to completion. -/
def finished (ps : ProcState) : Prop := ps.pc = 5 ∨ ps.pc = 6

/-- The set of workers that have performed their `INCR`. -/
def incremented {N : ℕ} (s : CoordState N) : Finset (Fin N) :=
  Finset.univ.filter fun p => 1 ≤ (s.procs p).pc

/-- The set of workers that observed the completion condition: they are on
the triggered path (program counter 3, 4 or 5). -/
def triggeredSet {N : ℕ} (s : CoordState N) : Finset (Fin N) :=
  Finset.univ.filter fun p => 3 ≤ (s.procs p).pc ∧ (s.procs p).pc ≤ 5

/-- The inductive invariant of the coordinator protocol. -/
structure CoordInv (N : ℕ) (s : CoordState N) : Prop where
  pc_le : ∀ p, (s.procs p).pc ≤ 6
  total_cases : s.redis.total = some N ∨ s.redis.total = none
  total_none_iff : s.redis.total = none ↔ ∃ p, (s.procs p).pc = 5
  completed_eq : (¬ ∃ p, 4 ≤ (s.procs p).pc ∧ (s.procs p).pc ≤ 5) →
    s.redis.completed =
      (if (incremented s).card = 0 then none else some (incremented s).card)
  completed_deleted : (∃ p, 4 ≤ (s.procs p).pc ∧ (s.procs p).pc ≤ 5) →
    s.redis.completed = none
  local_bounds : ∀ p, 1 ≤ (s.procs p).pc →
    1 ≤ (s.procs p).localCompleted ∧
      (s.procs p).localCompleted ≤ (incremented s).card
  local_inj : ∀ p q, 1 ≤ (s.procs p).pc → 1 ≤ (s.procs q).pc → p ≠ q →
    (s.procs p).localCompleted ≠ (s.procs q).localCompleted
  trig_spec : ∀ p, 3 ≤ (s.procs p).pc → (s.procs p).pc ≤ 5 →
    (s.procs p).localCompleted = N ∧ ∀ q, 1 ≤ (s.procs q).pc
  localTotal_cases : ∀ p, 2 ≤ (s.procs p).pc →
    (s.procs p).localTotal = some N ∨ (s.procs p).localTotal = none
  localTotal_none : ∀ p, 2 ≤ (s.procs p).pc → (s.procs p).localTotal = none →
    ∃ q, (s.procs q).pc = 5
  pc6_reason : ∀ p, (s.procs p).pc = 6 →
    (s.procs p).localTotal = none ∨
      ∃ t, (s.procs p).localTotal = some t ∧ (s.procs p).localCompleted < t
  sched_eq : s.scheduled = List.replicate (triggeredSet s).card 60

end Coordinator

/-! ### Batch task increment behaviour (`process_articles_batch`,
    tasks.py:31–207) — the data needed for claim C7. -/

/-- Outcome of one article inside the AI result list: `error` is the
    per-article error flag from the AI service, `hasUpdate` whether a
    summary or embedding came back, `saveRaises` whether writing it to the
    database raises (caught per-article, counted as failed). -/
structure ResultItem where
  articleId : ℕ
  error : Bool
  hasUpdate : Bool
  saveRaises : Bool

/-- Statistics returned by `process_articles_batch`. -/
structure BatchStats where
  status : String
  processed : ℕ
  successful : ℕ
  failed : ℕ

/-- `process_articles_batch` (tasks.py:31–207) as a function of its
    environment: the batch, which articles are fetchable with content and
    title, the AI-service outcome (`.error` = the exception path that ends
    in `self.retry`), the per-article save outcomes, whether Redis is
    reachable (a Redis error is caught and skips the counter section), the
    explicit target date and the fallback date of the first article.
    Returns the task outcome paired with the number of `INCR` operations
    performed on the completed counter of the resolved date. -/
def process_articles_batch (articleIds : List ℕ) (valid : ℕ → Bool)
    (aiOutcome : Except Unit (List ResultItem)) (redisOK : Bool)
    (targetNewsDate : Option ℤ) (firstArticleDate : ℕ → Option ℤ) :
    Except Unit BatchStats × ℕ :=
  if 50 < articleIds.length then
    (.ok ⟨"error", 0, 0, articleIds.length⟩, 0)
  else
    let articlesData := articleIds.filter valid
    if articlesData.isEmpty then
      (.ok ⟨"error", 0, 0, articleIds.length⟩, 0)
    else
      match aiOutcome with
      | .error _ => (.error (), 0)
      | .ok results =>
          let successful :=
            (results.filter fun r => !r.error && r.hasUpdate && !r.saveRaises).length
          let failed := (results.filter fun r => r.error || (!r.error && r.saveRaises)).length
          let newsDate :=
            match targetNewsDate with
            | some ds => some ds
            | none => articleIds.head?.bind firstArticleDate
          let incrCount :=
            match newsDate with
            | some _ => if redisOK then 1 else 0
            | none => 0
          (.ok ⟨"success", results.length, successful, failed⟩, incrCount)

/-! ### Spec-modelled comparison definition for claim C1 -/

/-- Modelled from the spec: "the similarity score stored in that article's
    `topic_article_mapping` row equals the cosine similarity between the
    article's embedding and the cluster's own centroid (the re-normalized
    mean of its members' embeddings)".  This is the value the spec says is
    stored, for comparison with what `calculate_similarity_scores`
    actually computes. -/
def specSimilarityToOwnCentroid {d : ℕ} (cluster : List (ClusterArticle d))
    (a : ClusterArticle d) : ℝ :=
  calculate_cosine_similarity a.emb (divNorm (meanV (cluster.map (·.emb))))

/-! ### Concrete instances used by witnesses and counterexamples -/

/-- A concrete `fit_predict` oracle for the C3 witness: it depends only on
the sample count; threshold mode yields labels `i % 5`, forced mode labels
`min i (k-1)`. -/
def fitWitness : AggParams → List (Vec 1) → List ℤ :=
  fun pa embs =>
    match pa.nClusters with
    | none => (List.range embs.length).map fun i => ((i % 5 : ℕ) : ℤ)
    | some k => (List.range embs.length).map fun i => ((min i (k - 1) : ℕ) : ℤ)

/-- Twelve articles with constant embeddings for the C3 witness. -/
def articles12 : List (ClusterArticle 1) :=
  (List.range 12).map fun i => ⟨i + 1, "", fun _ => 1⟩

/-- A two-article cluster with orthogonal unit embeddings, used by the C1
counterexample: article 1 at `(1, 0)`, article 2 at `(0, 1)`. -/
def clusterC1 : List (ClusterArticle 2) :=
  [⟨1, "a1", ![1, 0]⟩, ⟨2, "a2", ![0, 1]⟩]

/-- Three articles used by the C4 counterexample and the C4/C5 witnesses;
with labels `[0, 0, 1]` they form one cluster of size 2 and one of
size 1. -/
def articlesC4 : List (ClusterArticle 2) :=
  [⟨1, "a", ![1, 0]⟩, ⟨2, "b", ![1, 0]⟩, ⟨3, "c", ![0, 1]⟩]

/-- The empty database. -/
def dbEmpty2 : DBState 2 := ⟨[], [], [], []⟩

/-- A database holding one pre-existing topic (id 9) for date 0 with one
mapping, used by the C5 witness. -/
def dbC5 : DBState 2 :=
  ⟨[], [⟨9, 0, "old", 1, some 1, 0, 0, none, true, 0⟩], [⟨9, 5, 1, 0⟩], []⟩

/-- A database with one embedded, unmapped article and no topics, used by
the C9 code-bug theorem: a run on it reaches
`add_to_pending(..., 'no_topics', 0.0)`, which raises `NameError`. -/
def db9 : DBState 2 :=
  ⟨[⟨10, "n", some ![0, 1], 0, 5⟩], [], [], []⟩

/-- A database with one active centroided topic (id 1, centroid `(1, 0)`)
for date 0 and one embedded, unmapped article (id 20, embedding `(1, 0)`),
used by the C2 code-bug theorem: the decision logic chooses to assign, and
the write then raises. -/
def dbC2 : DBState 2 :=
  ⟨[⟨20, "n", some ![1, 0], 0, 5⟩],
   [⟨1, 0, "t", 1, some 1, 1, 0, some ![1, 0], true, 0⟩], [], []⟩

/-! ## Part 2: theorems -/

/-! ### Vector basics -/

theorem vec_add_apply {d : ℕ} (v w : Vec d) (i : Fin d) :
    (v + w) i = v i + w i := rfl

theorem vec_zero_apply {d : ℕ} (i : Fin d) : (0 : Vec d) i = 0 := rfl

theorem vec_smul_apply {d : ℕ} (c : ℝ) (v : Vec d) (i : Fin d) :
    (c • v) i = c * v i := rfl

theorem dotV_self_nonneg {d : ℕ} (v : Vec d) : 0 ≤ dotV v v :=
  Finset.sum_nonneg fun i _ => mul_self_nonneg (v i)

theorem normV_nonneg {d : ℕ} (v : Vec d) : 0 ≤ normV v := Real.sqrt_nonneg _

theorem normV_eq_zero_iff {d : ℕ} (v : Vec d) :
    normV v = 0 ↔ ∀ i, v i = 0 := by
  unfold normV
  rw [Real.sqrt_eq_zero (dotV_self_nonneg v)]
  unfold dotV
  constructor
  · intro h i
    have hterm := (Finset.sum_eq_zero_iff_of_nonneg
      (fun j _ => mul_self_nonneg (v j))).mp h i (Finset.mem_univ i)
    exact mul_self_eq_zero.mp hterm
  · intro h
    exact Finset.sum_eq_zero fun i _ => by rw [h i, zero_mul]

theorem dotV_zero_left {d : ℕ} (v w : Vec d) (h : ∀ i, v i = 0) :
    dotV v w = 0 :=
  Finset.sum_eq_zero fun i _ => by rw [h i, zero_mul]

theorem dotV_zero_right {d : ℕ} (v w : Vec d) (h : ∀ i, w i = 0) :
    dotV v w = 0 :=
  Finset.sum_eq_zero fun i _ => by rw [h i, mul_zero]

theorem clip1_mem (x : ℝ) : -1 ≤ clip1 x ∧ clip1 x ≤ 1 := by
  constructor
  · exact le_min (le_max_right x (-1)) (by norm_num)
  · exact min_le_right _ _

theorem batch_normalize_length {d : ℕ} (l : List (Vec d)) :
    (batch_normalize_vectors l).length = l.length := by
  simp [batch_normalize_vectors]

/-! ### Claim C10 -/

/-- **C10.** The cosine-similarity utility used by the assigner is total
and range-bounded: for every pair of input vectors
`calculate_cosine_similarity` returns a value in `[-1, 1]` (the result is
explicitly clipped), and when either input has zero L2 norm no division by
zero occurs because `normalize_vector` returns the vector unchanged,
making the similarity involving a zero-norm vector equal to `0.0`. -/
theorem c10_cosine_similarity_total_and_bounded :
    (∀ (d : ℕ) (v w : Vec d),
      -1 ≤ calculate_cosine_similarity v w ∧ calculate_cosine_similarity v w ≤ 1) ∧
    (∀ (d : ℕ) (v w : Vec d), normV v = 0 →
      normalize_vector v = v ∧
      calculate_cosine_similarity v w = 0 ∧ calculate_cosine_similarity w v = 0) := by
  constructor
  · intro d v w
    exact clip1_mem _
  · intro d v w hv
    have hz : ∀ i, v i = 0 := (normV_eq_zero_iff v).mp hv
    have hnorm : normalize_vector v = v := by
      unfold normalize_vector
      rw [if_pos hv]
    refine ⟨hnorm, ?_, ?_⟩
    · unfold calculate_cosine_similarity
      rw [hnorm, dotV_zero_left _ _ hz]
      unfold clip1
      norm_num
    · unfold calculate_cosine_similarity
      rw [hnorm, dotV_zero_right _ _ hz]
      unfold clip1
      norm_num

/-- Witness for C10 at a concrete input: the zero vector in dimension 2
has zero norm and its similarity with `(3, 4)` is `0`; and the similarity
of `(3, 4)` and `(1, 0)` is bounded by `[-1, 1]`. -/
theorem c10_witness :
    calculate_cosine_similarity (0 : Vec 2) ![3, 4] = 0 ∧
    -1 ≤ calculate_cosine_similarity (d := 2) ![3, 4] ![1, 0] := by
  constructor
  · have h0 : normV (0 : Vec 2) = 0 := by
      rw [normV_eq_zero_iff]
      intro i
      rfl
    exact (c10_cosine_similarity_total_and_bounded.2 2 0 ![3, 4] h0).2.1
  · exact (c10_cosine_similarity_total_and_bounded.1 2 ![3, 4] ![1, 0]).1

/-! ### Label bookkeeping (`len(set(labels))` and the cluster partition) -/

theorem foldl_collectLabel_mem (L : List ℤ) :
    ∀ (acc : List ℤ) (b : ℤ), b ∈ L.foldl collectLabel acc ↔ b ∈ acc ∨ b ∈ L := by
  induction L with
  | nil => simp
  | cons a l ih =>
    intro acc b
    rw [List.foldl_cons, ih]
    unfold collectLabel
    by_cases ha : a ∈ acc
    · rw [if_pos ha]
      constructor
      · rintro (h | h)
        · exact Or.inl h
        · exact Or.inr (List.mem_cons_of_mem a h)
      · rintro (h | h)
        · exact Or.inl h
        · rcases List.mem_cons.mp h with rfl | h
          · exact Or.inl ha
          · exact Or.inr h
    · rw [if_neg ha]
      simp only [List.mem_append, List.mem_singleton, List.mem_cons]
      tauto

theorem foldl_collectLabel_nodup (L : List ℤ) :
    ∀ acc : List ℤ, acc.Nodup → (L.foldl collectLabel acc).Nodup := by
  induction L with
  | nil => exact fun acc h => h
  | cons a l ih =>
    intro acc hacc
    rw [List.foldl_cons]
    apply ih
    unfold collectLabel
    by_cases ha : a ∈ acc
    · rwa [if_pos ha]
    · rw [if_neg ha]
      rw [List.nodup_append]
      exact ⟨hacc, List.nodup_singleton a, by simpa using ha⟩

theorem mem_uniqueLabels (L : List ℤ) (b : ℤ) : b ∈ uniqueLabels L ↔ b ∈ L := by
  unfold uniqueLabels
  rw [foldl_collectLabel_mem]
  simp

theorem nodup_uniqueLabels (L : List ℤ) : (uniqueLabels L).Nodup :=
  foldl_collectLabel_nodup L [] List.nodup_nil

theorem length_filter_add_length_filter_not {α : Type _} (P : List α) (p : α → Bool) :
    (P.filter p).length + (P.filter fun a => !(p a)).length = P.length := by
  induction P with
  | nil => simp
  | cons q P ih =>
    by_cases hq : p q
    · simp [List.filter_cons, hq, ← ih]
      omega
    · simp only [Bool.not_eq_true] at hq
      simp [List.filter_cons, hq, ← ih]
      omega

theorem sum_filter_lengths {α : Type _} (L : List ℤ) (P : List (α × ℤ))
    (hmem : ∀ q ∈ P, q.2 ∈ L) (hnd : L.Nodup) :
    (L.map fun lb => (P.filter fun q => decide (q.2 = lb)).length).sum = P.length := by
  induction L generalizing P with
  | nil =>
    match P with
    | [] => simp
    | q :: P => exact absurd (hmem q (List.mem_cons_self q P)) (List.not_mem_nil q.2)
  | cons lb rest ih =>
    have hnd' := List.nodup_cons.mp hnd
    have hsplit := length_filter_add_length_filter_not P (fun q => decide (q.2 = lb))
    have hmem' : ∀ q ∈ P.filter fun q => !(decide (q.2 = lb)), q.2 ∈ rest := by
      intro q hq
      have hq' := List.mem_filter.mp hq
      have : q.2 ∈ lb :: rest := hmem q hq'.1
      have hne : ¬(q.2 = lb) := by
        have := hq'.2
        simpa using this
      rcases List.mem_cons.mp this with h | h
      · exact absurd h hne
      · exact h
    have hih := ih (P.filter fun q => !(decide (q.2 = lb))) hmem' hnd'.2
    have hrest : (rest.map fun lb' => (P.filter fun q => decide (q.2 = lb')).length) =
        (rest.map fun lb' =>
          ((P.filter fun q => !(decide (q.2 = lb))).filter
            fun q => decide (q.2 = lb')).length) := by
      apply List.map_congr_left
      intro lb' hlb'
      have hne : lb' ≠ lb := fun h => hnd'.1 (h ▸ hlb')
      rw [List.filter_filter]
      congr 1
      apply List.filter_congr
      intro q _
      by_cases h : q.2 = lb'
      · have : ¬(q.2 = lb) := fun hh => hne (h ▸ hh ▸ rfl)
        simp [h, this, hne]
      · simp [h]
    rw [List.map_cons, List.sum_cons, hrest, hih, hsplit]

/-! ### Claim C3 -/

/-- The hierarchical branch written through the named oracle calls. -/
theorem cluster_articles_hierarchical_eq {d : ℕ}
    (fit : AggParams → List (Vec d) → List ℤ) (dt : ℝ) (minC maxC : ℕ)
    (articles : List (ClusterArticle d)) :
    cluster_articles_hierarchical fit dt minC maxC articles =
      if (uniqueLabels (fitThreshold fit dt articles)).length < minC then
        fitForced fit minC articles
      else if maxC < (uniqueLabels (fitThreshold fit dt articles)).length then
        fitForced fit maxC articles
      else fitThreshold fit dt articles := rfl

/-- **C3.** For a hierarchical run, the threshold-driven average-linkage
cosine clustering is performed first; its labels are kept when the found
cluster count lies in `[minC, maxC]`; below `minC` the clustering is
re-run forcing `n_clusters = minC` and above `maxC` forcing
`n_clusters = maxC`, so the final distinct-cluster count is the threshold
count clamped to the band, one label is produced per article, and the
member counts of the resulting clusters sum to the article count.
The oracle hypotheses state what `sklearn` documents: `fit_predict`
returns one label per sample, and with `n_clusters = k` it produces
exactly `k` distinct labels. -/
theorem c3_hierarchical_clamping {d : ℕ}
    (fit : AggParams → List (Vec d) → List ℤ) (dt : ℝ) (minC maxC : ℕ)
    (articles : List (ClusterArticle d))
    (hmm : minC ≤ maxC)
    (h1 : (fitThreshold fit dt articles).length = articles.length)
    (hkminLen : (fitForced fit minC articles).length = articles.length)
    (hkminCnt : (uniqueLabels (fitForced fit minC articles)).length = minC)
    (hkmaxLen : (fitForced fit maxC articles).length = articles.length)
    (hkmaxCnt : (uniqueLabels (fitForced fit maxC articles)).length = maxC) :
    (cluster_articles_hierarchical fit dt minC maxC articles).length = articles.length ∧
    (uniqueLabels (cluster_articles_hierarchical fit dt minC maxC articles)).length =
      min maxC (max minC (uniqueLabels (fitThreshold fit dt articles)).length) ∧
    (minC ≤ (uniqueLabels (fitThreshold fit dt articles)).length →
      (uniqueLabels (fitThreshold fit dt articles)).length ≤ maxC →
      cluster_articles_hierarchical fit dt minC maxC articles =
        fitThreshold fit dt articles) ∧
    ((clustersOf articles (cluster_articles_hierarchical fit dt minC maxC articles)).map
        (fun c => c.2.length)).sum = articles.length := by
  set n0 := (uniqueLabels (fitThreshold fit dt articles)).length with hn0
  have hmain : (cluster_articles_hierarchical fit dt minC maxC articles).length =
        articles.length ∧
      (uniqueLabels (cluster_articles_hierarchical fit dt minC maxC articles)).length =
        min maxC (max minC n0) ∧
      (minC ≤ n0 → n0 ≤ maxC →
        cluster_articles_hierarchical fit dt minC maxC articles =
          fitThreshold fit dt articles) := by
    rw [cluster_articles_hierarchical_eq, ← hn0]
    by_cases hlt : n0 < minC
    · rw [if_pos hlt]
      refine ⟨hkminLen, ?_, ?_⟩
      · rw [hkminCnt]
        omega
      · intro h _
        omega
    · rw [if_neg hlt]
      by_cases hgt : maxC < n0
      · rw [if_pos hgt]
        refine ⟨hkmaxLen, ?_, ?_⟩
        · rw [hkmaxCnt]
          omega
        · intro _ h
          omega
      · rw [if_neg hgt]
        refine ⟨h1, ?_, fun _ _ => rfl⟩
        omega
  refine ⟨hmain.1, hmain.2.1, hmain.2.2, ?_⟩
  -- the clusters partition the articles
  set result := cluster_articles_hierarchical fit dt minC maxC articles with hres
  have hlen : result.length = articles.length := hmain.1
  unfold clustersOf
  rw [List.map_map]
  have hcomp :
      ((fun c : ℤ × List (ClusterArticle d) => c.2.length) ∘ fun lb =>
        (lb, ((articles.zip result).filter fun q => decide (q.2 = lb)).map (·.1))) =
      fun lb => ((articles.zip result).filter fun q => decide (q.2 = lb)).length := by
    funext lb
    simp [Function.comp]
  rw [hcomp]
  have hmem : ∀ q ∈ articles.zip result, q.2 ∈ uniqueLabels result := by
    intro q hq
    exact (mem_uniqueLabels result q.2).mpr (List.of_mem_zip hq).2
  rw [sum_filter_lengths (uniqueLabels result) (articles.zip result) hmem
    (nodup_uniqueLabels result)]
  rw [List.length_zip, hlen, min_self]

/-- Witness for C3, realizing the spec's worked example: 12 articles, band
`[2, 4]`, threshold-driven clustering finds 5 clusters, so the run is
forced to `n_clusters = 4`; the final labels have 4 distinct values, one
label per article, and member counts summing to 12. -/
theorem c3_witness :
    (cluster_articles_hierarchical fitWitness (1/2 : ℝ) 2 4 articles12).length = 12 ∧
    (uniqueLabels (cluster_articles_hierarchical fitWitness (1/2 : ℝ) 2 4 articles12)).length
      = 4 ∧
    (uniqueLabels (fitThreshold fitWitness (1/2 : ℝ) articles12)).length = 5 ∧
    ((clustersOf articles12 (cluster_articles_hierarchical fitWitness (1/2 : ℝ) 2 4
        articles12)).map (fun c => c.2.length)).sum = 12 := by
  obtain ⟨hl, hc, -, hs⟩ := c3_hierarchical_clamping fitWitness (1/2 : ℝ) 2 4 articles12
    (by norm_num) (by decide) (by decide) (by decide) (by decide) (by decide)
  have hn0 : (uniqueLabels (fitThreshold fitWitness (1/2 : ℝ) articles12)).length = 5 := by
    decide
  refine ⟨?_, ?_, hn0, ?_⟩
  · rw [hl]
    decide
  · rw [hc, hn0]
    decide
  · rw [hs]
    decide

/-! ### The running-maximum fold of `find_best_topic` -/

theorem foldl_best_snd {α : Type _} (score : α → ℝ) (tid : α → ℕ) (l : List α) :
    ∀ acc : Option ℕ × ℝ,
      (l.foldl (fun acc t => if acc.2 < score t then (some (tid t), score t) else acc) acc).2 =
        l.foldl (fun a t => max a (score t)) acc.2 := by
  induction l with
  | nil => intro acc; rfl
  | cons t ts ih =>
    intro acc
    rw [List.foldl_cons, List.foldl_cons, ih]
    congr 1
    by_cases h : acc.2 < score t
    · rw [if_pos h]
      exact (max_eq_right h.le).symm
    · rw [if_neg h]
      exact (max_eq_left (not_lt.mp h)).symm

theorem foldl_best_fst {α : Type _} (score : α → ℝ) (tid : α → ℕ) (l : List α) :
    ∀ acc : Option ℕ × ℝ,
      (l.foldl (fun acc t => if acc.2 < score t then (some (tid t), score t) else acc) acc)
          = acc ∨
        ∃ t ∈ l,
          (l.foldl (fun acc t => if acc.2 < score t then (some (tid t), score t) else acc)
              acc).1 = some (tid t) ∧
          (l.foldl (fun acc t => if acc.2 < score t then (some (tid t), score t) else acc)
              acc).2 = score t := by
  induction l with
  | nil => intro acc; exact Or.inl rfl
  | cons t ts ih =>
    intro acc
    rw [List.foldl_cons]
    rcases ih (if acc.2 < score t then (some (tid t), score t) else acc) with h | ⟨u, hu, h1, h2⟩
    · rw [h]
      by_cases hc : acc.2 < score t
      · rw [if_pos hc]
        exact Or.inr ⟨t, List.mem_cons_self t ts, rfl, rfl⟩
      · rw [if_neg hc]
        exact Or.inl rfl
    · exact Or.inr ⟨u, List.mem_cons_of_mem t hu, h1, h2⟩

theorem le_foldl_max {α : Type _} (score : α → ℝ) (l : List α) :
    ∀ c : ℝ, c ≤ l.foldl (fun a t => max a (score t)) c := by
  induction l with
  | nil => intro c; exact le_refl c
  | cons t ts ih =>
    intro c
    rw [List.foldl_cons]
    exact le_trans (le_max_left c (score t)) (ih _)

theorem mem_le_foldl_max {α : Type _} (score : α → ℝ) (l : List α) :
    ∀ (c : ℝ) (t : α), t ∈ l → score t ≤ l.foldl (fun a t => max a (score t)) c := by
  induction l with
  | nil => intro c t h; exact absurd h (List.not_mem_nil t)
  | cons u ts ih =>
    intro c t ht
    rw [List.foldl_cons]
    rcases List.mem_cons.mp ht with rfl | ht
    · exact le_trans (le_max_right c (score t)) (le_foldl_max score ts _)
    · exact ih _ t ht

theorem foldl_max_le {α : Type _} (score : α → ℝ) (l : List α) :
    ∀ (c m : ℝ), c ≤ m → (∀ t ∈ l, score t ≤ m) →
      l.foldl (fun a t => max a (score t)) c ≤ m := by
  induction l with
  | nil => intro c m hc _; exact hc
  | cons t ts ih =>
    intro c m hc hub
    rw [List.foldl_cons]
    exact ih _ m (max_le hc (hub t (List.mem_cons_self t ts)))
      fun u hu => hub u (List.mem_cons_of_mem t hu)

theorem foldl_max_eq {α : Type _} (score : α → ℝ) (l : List α) (c m : ℝ)
    (hub : ∀ t ∈ l, score t ≤ m) (hmem : ∃ t ∈ l, score t = m) :
    l.foldl (fun a t => max a (score t)) c = max c m := by
  apply le_antisymm
  · exact foldl_max_le score l c (max c m) (le_max_left c m)
      fun t ht => le_trans (hub t ht) (le_max_right c m)
  · obtain ⟨t, ht, hts⟩ := hmem
    exact max_le (le_foldl_max score l c) (hts ▸ mem_le_foldl_max score l c t ht)

/-! ### Claim C2 -/

/-- **C2** (code bug).  The decision logic the claim describes is reached
and decides to assign: with one active topic of centroid `(1, 0)` and a
candidate embedding `(1, 0)`, the maximum cosine similarity is
`1 ≥ 0.5`, `find_best_topic` returns that topic, and the
`if best_topic_id:` guard passes.  But no store the claim describes can
happen: `assign_article_to_topic` and `add_to_pending` raise `NameError`
at their opening `with get_db_connection()` (the name is never imported
in `incremental_assignment.py`), leaving the database unchanged, and a
full run on the same state aborts with that error instead of recording
the assignment. -/
theorem c2_assignment_decision_reached_but_write_raises :
    find_best_topic (1/2 : ℝ) (d := 2) ![1, 0] [⟨1, ![1, 0]⟩] = (some 1, 1) ∧
    truthy (some 1) = true ∧
    assign_article_to_topic dbC2 20 1 1 0 =
      (dbC2, .nameError "get_db_connection") ∧
    add_to_pending dbC2 20 "low_similarity" 0 =
      (dbC2, .nameError "get_db_connection") ∧
    run_incremental_assignment (1/2 : ℝ) dbC2 0 10 30 =
      (dbC2, .error (.nameError "get_db_connection")) := by
  have hdot2 : dotV (d := 2) ![1, 0] ![1, 0] = 1 := by
    unfold dotV
    rw [Fin.sum_univ_two]
    norm_num
  have hn2 : normV (d := 2) ![1, 0] = 1 := by
    unfold normV
    rw [hdot2, Real.sqrt_one]
  have hsim : calculate_cosine_similarity (d := 2) ![1, 0] ![1, 0] = 1 := by
    unfold calculate_cosine_similarity normalize_vector
    rw [hn2]
    rw [if_neg (one_ne_zero (α := ℝ))]
    have hd : dotV (d := 2) ((1 : ℝ)⁻¹ • ![1, 0]) ((1 : ℝ)⁻¹ • ![1, 0]) = 1 := by
      unfold dotV
      rw [Fin.sum_univ_two]
      show (1 : ℝ)⁻¹ * 1 * ((1 : ℝ)⁻¹ * 1) + (1 : ℝ)⁻¹ * 0 * ((1 : ℝ)⁻¹ * 0) = 1
      norm_num
    rw [hd]
    unfold clip1
    norm_num
  refine ⟨?_, rfl, rfl, rfl, rfl⟩
  simp only [find_best_topic, List.foldl_cons, List.foldl_nil, hsim]
  norm_num

/-! ### Cosine similarity versus raw normalized dot products -/

theorem dotV_pair (a b c e : ℝ) : dotV (d := 2) ![a, b] ![c, e] = a * c + b * e := by
  unfold dotV
  rw [Fin.sum_univ_two]
  simp [Matrix.cons_val_zero, Matrix.cons_val_one, Matrix.head_cons]

theorem dotV_smul_smul {d : ℕ} (c c' : ℝ) (u v : Vec d) :
    dotV (c • u) (c' • v) = c * c' * dotV u v := by
  unfold dotV
  rw [Finset.mul_sum]
  apply Finset.sum_congr rfl
  intro i _
  show c * u i * (c' * v i) = c * c' * (u i * v i)
  ring

theorem dotV_le_norm_mul_norm {d : ℕ} (u v : Vec d) :
    dotV u v ≤ normV u * normV v := by
  unfold dotV normV
  have h := Real.sum_mul_le_sqrt_mul_sqrt Finset.univ u v
  have hu : ∑ i, u i ^ 2 = ∑ i, u i * u i := by
    apply Finset.sum_congr rfl
    intro i _
    ring
  have hv : ∑ i, v i ^ 2 = ∑ i, v i * v i := by
    apply Finset.sum_congr rfl
    intro i _
    ring
  rwa [hu, hv] at h

theorem neg_norm_mul_norm_le_dotV {d : ℕ} (u v : Vec d) :
    -(normV u * normV v) ≤ dotV u v := by
  have h := dotV_le_norm_mul_norm (fun i => -(u i)) v
  have hdot : dotV (fun i => -(u i)) v = -(dotV u v) := by
    unfold dotV
    rw [← Finset.sum_neg_distrib]
    apply Finset.sum_congr rfl
    intro i _
    ring
  have hnorm : normV (fun i => -(u i)) = normV u := by
    unfold normV dotV
    congr 1
    apply Finset.sum_congr rfl
    intro i _
    ring
  rw [hdot, hnorm] at h
  linarith

theorem dot_divNorm_bounds {d : ℕ} (u v : Vec d) (hu : normV u ≠ 0)
    (hv : normV v ≠ 0) :
    -1 ≤ dotV (divNorm u) (divNorm v) ∧ dotV (divNorm u) (divNorm v) ≤ 1 := by
  have hu' : 0 < normV u := lt_of_le_of_ne (normV_nonneg u) (Ne.symm hu)
  have hv' : 0 < normV v := lt_of_le_of_ne (normV_nonneg v) (Ne.symm hv)
  unfold divNorm
  rw [dotV_smul_smul]
  constructor
  · have h := neg_norm_mul_norm_le_dotV u v
    rw [neg_le_iff_add_nonneg] at h
    have key : (normV u)⁻¹ * (normV v)⁻¹ * (-(normV u * normV v)) ≤
        (normV u)⁻¹ * (normV v)⁻¹ * dotV u v := by
      apply mul_le_mul_of_nonneg_left (neg_norm_mul_norm_le_dotV u v)
      positivity
    calc (-1 : ℝ) = (normV u)⁻¹ * (normV v)⁻¹ * (-(normV u * normV v)) := by
          field_simp
      _ ≤ (normV u)⁻¹ * (normV v)⁻¹ * dotV u v := key
  · have key : (normV u)⁻¹ * (normV v)⁻¹ * dotV u v ≤
        (normV u)⁻¹ * (normV v)⁻¹ * (normV u * normV v) := by
      apply mul_le_mul_of_nonneg_left (dotV_le_norm_mul_norm u v)
      positivity
    calc (normV u)⁻¹ * (normV v)⁻¹ * dotV u v ≤
          (normV u)⁻¹ * (normV v)⁻¹ * (normV u * normV v) := key
      _ = 1 := by field_simp

theorem clip1_eq_self {x : ℝ} (h1 : -1 ≤ x) (h2 : x ≤ 1) : clip1 x = x := by
  unfold clip1
  rw [max_eq_left h1, min_eq_left h2]

theorem clip1_pos {x : ℝ} (h : 0 < x) : 0 < clip1 x := by
  unfold clip1
  apply lt_min
  · exact lt_max_of_lt_left h
  · norm_num

/-- With nonzero norms, the utility `calculate_cosine_similarity` agrees
with the raw normalized dot product computed inline by
`calculate_similarity_scores`: the clip is the identity there, by
Cauchy–Schwarz. -/
theorem cos_eq_dot_divNorm {d : ℕ} (u v : Vec d) (hu : normV u ≠ 0)
    (hv : normV v ≠ 0) :
    calculate_cosine_similarity u v = dotV (divNorm u) (divNorm v) := by
  unfold calculate_cosine_similarity normalize_vector
  rw [if_neg hu, if_neg hv]
  have hb := dot_divNorm_bounds u v hu hv
  unfold divNorm at hb ⊢
  exact clip1_eq_self hb.1 hb.2

/-! ### Claim C1 -/

/-- Counterexample to C1 as stated.  Cluster of two orthogonal unit
embeddings: article 1 at `(1, 0)`, article 2 at `(0, 1)`.  The
representative is article 1, and the similarity stored in article 2's
mapping row is `cos((0,1), (1,0)) = 0`; but the cosine similarity of
article 2's embedding to the cluster's own centroid (the re-normalized
mean `(1/2, 1/2)/‖·‖`) is strictly positive, so the stored value does not
equal the claimed one. -/
theorem c1_counterexample :
    select_representative_article clusterC1 = 1 ∧
    (buildTopic 0 0 (fun _ => none) 0 100 1 ((0 : ℤ), clusterC1)).2 =
      [⟨100, 1, 1, 0⟩, ⟨100, 2, 0, 0⟩] ∧
    0 < specSimilarityToOwnCentroid clusterC1 ⟨2, "a2", ![0, 1]⟩ := by
  have hn10 : normV (d := 2) ![1, 0] = 1 := by
    unfold normV
    rw [dotV_pair]
    norm_num
  have hn01 : normV (d := 2) ![0, 1] = 1 := by
    unfold normV
    rw [dotV_pair]
    norm_num
  have hmean : meanV (clusterC1.map (·.emb)) = ![1/2, 1/2] := by
    funext i
    fin_cases i <;>
      simp [meanV, clusterC1, Matrix.cons_val_zero, Matrix.cons_val_one, Matrix.head_cons]
  have hnc : normV (d := 2) ![1/2, 1/2] = Real.sqrt (1/2) := by
    unfold normV
    rw [dotV_pair]
    norm_num
  have hcpos : (0 : ℝ) < Real.sqrt (1/2) := Real.sqrt_pos.mpr (by norm_num)
  have hsel : select_representative_article clusterC1 = 1 := by
    unfold select_representative_article
    rw [if_neg (by decide : ¬(clusterC1.length = 1))]
    show ((clusterC1.getD (argmaxIdx ((batch_normalize_vectors (clusterC1.map (·.emb))).map
      fun e => dotV e (normalize_vector (meanV (clusterC1.map (·.emb)))))) (dummyArticle 2)).articleId) = 1
    rw [hmean]
    have hcN : normalize_vector (d := 2) ![1/2, 1/2] =
        (Real.sqrt (1/2))⁻¹ • ![1/2, 1/2] := by
      unfold normalize_vector
      rw [hnc, if_neg hcpos.ne']
    have hbn : batch_normalize_vectors (clusterC1.map (·.emb)) =
        [(1 : ℝ)⁻¹ • ![1, 0], (1 : ℝ)⁻¹ • ![0, 1]] := by
      show [(if normV (d := 2) ![1, 0] = 0 then 1 else normV (d := 2) ![1, 0])⁻¹ • ![1, 0],
        (if normV (d := 2) ![0, 1] = 0 then 1 else normV (d := 2) ![0, 1])⁻¹ • ![0, 1]] =
        [(1 : ℝ)⁻¹ • ![1, 0], (1 : ℝ)⁻¹ • ![0, 1]]
      rw [hn10, hn01]
      norm_num
    rw [hbn, hcN]
    rw [List.map_cons, List.map_cons, List.map_nil]
    rw [dotV_smul_smul, dotV_smul_smul, dotV_pair, dotV_pair]
    have e1 : (1 : ℝ)⁻¹ * (Real.sqrt (1/2))⁻¹ * (1 * (1/2) + 0 * (1/2)) =
        (Real.sqrt (1/2))⁻¹ * (1/2) := by ring
    have e2 : (1 : ℝ)⁻¹ * (Real.sqrt (1/2))⁻¹ * (0 * (1/2) + 1 * (1/2)) =
        (Real.sqrt (1/2))⁻¹ * (1/2) := by ring
    rw [e1, e2]
    rw [argmaxIdx, argmaxAux, if_neg (lt_irrefl ((Real.sqrt (1/2))⁻¹ * (1/2))), argmaxAux]
    rfl
  refine ⟨hsel, ?_, ?_⟩
  · show (calculate_similarity_scores clusterC1
        (((clusterC1.find? fun a =>
          decide (a.articleId = select_representative_article clusterC1)).getD
            (dummyArticle 2)).emb)).map
        (fun s => MappingRow.mk 100 s.1 s.2 0) = [⟨100, 1, 1, 0⟩, ⟨100, 2, 0, 0⟩]
    rw [hsel]
    have hfind : (clusterC1.find? fun a => decide (a.articleId = 1)).getD (dummyArticle 2) =
        ⟨1, "a1", ![1, 0]⟩ := rfl
    rw [hfind]
    show [MappingRow.mk 100 1 (dotV (divNorm (d := 2) ![1, 0]) (divNorm (d := 2) ![1, 0])) 0,
      MappingRow.mk 100 2 (dotV (divNorm (d := 2) ![0, 1]) (divNorm (d := 2) ![1, 0])) 0] =
      [⟨100, 1, 1, 0⟩, ⟨100, 2, 0, 0⟩]
    unfold divNorm
    rw [hn10, hn01]
    rw [dotV_smul_smul, dotV_smul_smul, dotV_pair, dotV_pair]
    norm_num [List.cons.injEq, MappingRow.mk.injEq]
  · unfold specSimilarityToOwnCentroid
    rw [hmean]
    show 0 < calculate_cosine_similarity (![0, 1] : Vec 2) (divNorm ![1/2, 1/2])
    unfold calculate_cosine_similarity
    apply clip1_pos
    have hw : divNorm (d := 2) ![1/2, 1/2] = (Real.sqrt (1/2))⁻¹ • ![1/2, 1/2] := by
      unfold divNorm
      rw [hnc]
    have hwnorm : normV (divNorm (d := 2) ![1/2, 1/2]) ≠ 0 := by
      rw [Ne, normV_eq_zero_iff]
      intro hall
      have h0 := hall 0
      rw [hw] at h0
      have : (Real.sqrt (1/2))⁻¹ * (1/2 : ℝ) = 0 := h0
      have hne : (Real.sqrt (1/2))⁻¹ * (1/2 : ℝ) ≠ 0 := by positivity
      exact hne this
    have hwpos : 0 < normV (divNorm (d := 2) ![1/2, 1/2]) :=
      lt_of_le_of_ne (normV_nonneg _) (Ne.symm hwnorm)
    unfold normalize_vector
    rw [if_neg (hn01.trans_ne one_ne_zero), if_neg hwnorm]
    rw [dotV_smul_smul]
    apply mul_pos
    · apply mul_pos
      · rw [hn01]
        norm_num
      · exact inv_pos.mpr hwpos
    · rw [hw]
      show 0 < dotV (d := 2) ![0, 1] ((Real.sqrt (1/2))⁻¹ • ![1/2, 1/2])
      have : dotV (d := 2) ![0, 1] ((Real.sqrt (1/2))⁻¹ • ![1/2, 1/2]) =
          dotV (d := 2) ((1 : ℝ) • ![0, 1]) ((Real.sqrt (1/2))⁻¹ • ![1/2, 1/2]) := by
        congr 1
        funext i
        show (![0, 1] : Vec 2) i = 1 * (![0, 1] : Vec 2) i
        ring
      rw [this, dotV_smul_smul, dotV_pair]
      have h1 : (0 : ℝ) * (1/2) + 1 * (1/2) = 1/2 := by ring
      rw [h1]
      positivity

/-- **C1 (amended).**  For every cluster persisted by
`save_topics_to_db`, the similarity stored in each member's
`topic_article_mapping` row equals the cosine similarity between that
member's embedding and the embedding of the cluster's *representative
article* (the member closest to the centroid) — not the cosine similarity
to the cluster centroid itself. -/
theorem c1_amended_similarity_is_to_representative {d : ℕ}
    (date : ℤ) (silhouette : ℝ) (titles : ℤ → Option String) (now : ℤ)
    (tid rank : ℕ) (lb : ℤ) (cluster : List (ClusterArticle d))
    (hnorm : ∀ a ∈ cluster, normV a.emb ≠ 0)
    (hrep : normV (((cluster.find? fun a =>
        decide (a.articleId = select_representative_article cluster)).getD
          (dummyArticle d)).emb) ≠ 0) :
    (buildTopic date silhouette titles now tid rank (lb, cluster)).2 =
      cluster.map fun a =>
        ⟨tid, a.articleId,
          calculate_cosine_similarity a.emb
            (((cluster.find? fun a' =>
              decide (a'.articleId = select_representative_article cluster)).getD
                (dummyArticle d)).emb), date⟩ := by
  unfold buildTopic
  show (calculate_similarity_scores cluster
      (((cluster.find? fun a =>
        decide (a.articleId = select_representative_article cluster)).getD
          (dummyArticle d)).emb)).map
      (fun s => MappingRow.mk tid s.1 s.2 date) = _
  unfold calculate_similarity_scores
  rw [List.map_map]
  apply List.map_congr_left
  intro a ha
  show MappingRow.mk tid a.articleId
      (dotV (divNorm a.emb) (divNorm (((cluster.find? fun a' =>
        decide (a'.articleId = select_representative_article cluster)).getD
          (dummyArticle d)).emb))) date = _
  rw [← cos_eq_dot_divNorm a.emb _ (hnorm a ha) hrep]

/-- Witness for C1 (amended) on a concrete singleton cluster: the stored
similarity of the single member is its cosine similarity with the
representative (itself), which evaluates to `1`. -/
theorem c1_witness :
    (buildTopic 0 0 (fun _ => none) 0 7 1 ((0 : ℤ), [⟨1, "x", (![1, 0] : Vec 2)⟩])).2 =
      [⟨7, 1, calculate_cosine_similarity (![1, 0] : Vec 2) ![1, 0], 0⟩] := by
  have hn10 : normV (d := 2) ![1, 0] = 1 := by
    unfold normV
    rw [dotV_pair]
    norm_num
  have h := c1_amended_similarity_is_to_representative (d := 2) 0 0 (fun _ => none) 0 7 1 0
    [⟨1, "x", ![1, 0]⟩]
    (by
      intro a ha
      rw [List.mem_singleton] at ha
      rw [ha]
      rw [hn10]
      norm_num)
    (by
      show normV (d := 2) ![1, 0] ≠ 0
      rw [hn10]
      norm_num)
  rw [h]
  rfl

/-! ### The persistence transaction of `save_topics_to_db` -/

theorem foldl_insertMapping_ops {d : ℕ} (ms : List MappingRow) :
    ∀ db : DBState d, (ms.map DbOp.insertMapping).foldl applyOp db =
      { db with mappings := db.mappings ++ ms } := by
  induction ms with
  | nil =>
    intro db
    show db = { db with mappings := db.mappings ++ [] }
    rw [List.append_nil]
  | cons m ms ih =>
    intro db
    rw [List.map_cons, List.foldl_cons, ih]
    show { db with mappings := (db.mappings ++ [m]) ++ ms } =
      { db with mappings := db.mappings ++ m :: ms }
    rw [List.append_assoc, List.singleton_append]

theorem foldl_insertOpsOf {d : ℕ} (l : List (TopicRow d × List MappingRow)) :
    ∀ db : DBState d, (insertOpsOf l).foldl applyOp db =
      { db with topics := db.topics ++ l.map (·.1),
                mappings := db.mappings ++ l.flatMap (·.2) } := by
  induction l with
  | nil =>
    intro db
    show db = { db with topics := db.topics ++ [], mappings := db.mappings ++ [] }
    rw [List.append_nil, List.append_nil]
  | cons t rest ih =>
    intro db
    show ((DbOp.insertTopic t.1 :: t.2.map DbOp.insertMapping) ++ insertOpsOf rest).foldl
      applyOp db = _
    rw [List.foldl_append, List.foldl_cons, foldl_insertMapping_ops, ih]
    show { db with
        topics := (db.topics ++ [t.1]) ++
          rest.map (fun x : TopicRow d × List MappingRow => x.1),
        mappings := (db.mappings ++ t.2) ++
          rest.flatMap (fun x : TopicRow d × List MappingRow => x.2) } =
      { db with
        topics := db.topics ++
          (t.1 :: rest.map (fun x : TopicRow d × List MappingRow => x.1)),
        mappings := db.mappings ++
          (t.2 ++ rest.flatMap (fun x : TopicRow d × List MappingRow => x.2)) }
    rw [List.append_assoc, List.singleton_append, List.append_assoc]

theorem flatMap_map_compose {α β γ : Type _} (f : α → β) (g : β → List γ) (l : List α) :
    (l.map f).flatMap g = l.flatMap fun x => g (f x) := by
  induction l with
  | nil => rfl
  | cons a l ih =>
    rw [List.map_cons, List.flatMap_cons, List.flatMap_cons, ih]

theorem save_topics_ops_eq {d : ℕ} (p : ClustererParams)
    (articles : List (ClusterArticle d)) (labels : List ℤ) (date : ℤ)
    (silhouette : ℝ) (titles : ℤ → Option String) (now : ℤ) (startId : ℕ) :
    save_topics_ops p articles labels date silhouette titles now startId =
      DbOp.deleteTopicsOfDate date ::
        insertOpsOf ((sortedClusters p articles labels).enum.map fun ic =>
          buildTopic date silhouette titles now (startId + ic.1) (ic.1 + 1) ic.2) := by
  unfold save_topics_ops insertOpsOf
  rw [flatMap_map_compose]

/-- The committed state of the persistence transaction: the date's topics
are deleted (their mappings cascade away), then the new topic and mapping
rows are appended. -/
theorem save_commit_eq {d : ℕ} (p : ClustererParams) (db : DBState d)
    (articles : List (ClusterArticle d)) (labels : List ℤ) (date : ℤ)
    (silhouette : ℝ) (titles : ℤ → Option String) (now : ℤ) (startId : ℕ)
    (hvalid : (validClusters p articles labels).isEmpty = false) :
    (save_topics_to_db p db articles labels date silhouette titles now startId none).1 =
      { db with
          topics := (db.topics.filter fun t => decide ¬(t.date = date)) ++
            newTopicRows p articles labels date silhouette titles now startId,
          mappings := (db.mappings.filter fun m =>
              decide ¬(m.topicId ∈ (db.topics.filter fun t =>
                decide (t.date = date)).map (·.topicId))) ++
            newMappingRows p articles labels date silhouette titles now startId } := by
  have hcond : ¬((validClusters p articles labels).isEmpty = true) := by
    rw [hvalid]
    exact Bool.false_ne_true
  unfold save_topics_to_db
  rw [if_neg hcond]
  show (save_topics_ops p articles labels date silhouette titles now startId).foldl
    applyOp db = _
  rw [save_topics_ops_eq, List.foldl_cons, foldl_insertOpsOf]
  unfold newTopicRows newMappingRows
  rw [List.map_map, flatMap_map_compose]
  rfl

/-! ### Claim C5 -/

/-- **C5.** `save_topics_to_db`'s persistence for a date `D` is one
transaction: an exception at any point during the statement sequence rolls
everything back, leaving the database exactly as before; on success the
date's previous topics are deleted (their mappings removed through the
`ON DELETE CASCADE` foreign key), the new topic rows (all carrying date
`D`) and mapping rows are inserted, and rows of other dates, the articles
and the pending pool are untouched — either the whole date's topic set is
replaced or nothing changes. -/
theorem c5_persistence_atomic {d : ℕ} (p : ClustererParams) (db : DBState d)
    (articles : List (ClusterArticle d)) (labels : List ℤ) (date : ℤ)
    (silhouette : ℝ) (titles : ℤ → Option String) (now : ℤ) (startId : ℕ)
    (hvalid : (validClusters p articles labels).isEmpty = false) :
    (∀ k : ℕ,
      (save_topics_to_db p db articles labels date silhouette titles now startId
        (some k)).1 = db) ∧
    ((save_topics_to_db p db articles labels date silhouette titles now startId
        none).1.topics =
      (db.topics.filter fun t => decide ¬(t.date = date)) ++
        newTopicRows p articles labels date silhouette titles now startId) ∧
    ((save_topics_to_db p db articles labels date silhouette titles now startId
        none).1.mappings =
      (db.mappings.filter fun m =>
          decide ¬(m.topicId ∈ (db.topics.filter fun t =>
            decide (t.date = date)).map (·.topicId))) ++
        newMappingRows p articles labels date silhouette titles now startId) ∧
    ((save_topics_to_db p db articles labels date silhouette titles now startId
        none).1.articles = db.articles) ∧
    ((save_topics_to_db p db articles labels date silhouette titles now startId
        none).1.pending = db.pending) ∧
    (∀ r ∈ newTopicRows p articles labels date silhouette titles now startId,
      r.date = date) := by
  have hc := save_commit_eq p db articles labels date silhouette titles now startId hvalid
  refine ⟨?_, ?_, ?_, ?_, ?_, ?_⟩
  · intro k
    unfold save_topics_to_db runTransaction
    split
    · rfl
    · rfl
  · rw [hc]
  · rw [hc]
  · rw [hc]
  · rw [hc]
  · intro r hr
    unfold newTopicRows at hr
    obtain ⟨ic, -, hic⟩ := List.mem_map.mp hr
    rw [← hic]
    rfl

/-- Witness for C5 at a concrete input: a database with a pre-existing
topic for date 0; a failure after the third statement leaves it untouched,
and a committed run keeps the articles table unchanged. -/
theorem c5_witness :
    (save_topics_to_db ⟨1, 1⟩ dbC5 articlesC4 [0, 0, 1] 0 0 (fun _ => none) 0 50
      (some 3)).1 = dbC5 ∧
    (save_topics_to_db ⟨1, 1⟩ dbC5 articlesC4 [0, 0, 1] 0 0 (fun _ => none) 0 50
      none).1.articles = dbC5.articles := by
  have h := c5_persistence_atomic ⟨1, 1⟩ dbC5 articlesC4 [0, 0, 1] 0 0 (fun _ => none) 0 50
    (by decide)
  exact ⟨h.1 3, h.2.2.2.1⟩

/-! ### Claim C4 -/

/-- Counterexample to C4 as stated.  Three articles with labels
`[0, 0, 1]` yield two valid clusters (sizes 2 and 1) under
`min_articles_per_topic = 1`; with `n_topics = 1` only the larger cluster
is persisted — the valid size-1 cluster (article 3) is discarded entirely
rather than persisted with a null rank, and the persisted topic's rank is
non-null. -/
theorem c4_counterexample :
    (validClusters ⟨1, 1⟩ articlesC4 [0, 0, 1]).length = 2 ∧
    (save_topics_to_db ⟨1, 1⟩ dbEmpty2 articlesC4 [0, 0, 1] 0 0 (fun _ => none) 0 50
      none).1.topics.map (·.rank) = [some 1] ∧
    (save_topics_to_db ⟨1, 1⟩ dbEmpty2 articlesC4 [0, 0, 1] 0 0 (fun _ => none) 0 50
      none).1.mappings.map (·.articleId) = [1, 2] := by
  refine ⟨by decide, ?_, ?_⟩
  · decide
  · decide

/-- **C4 (amended).**  After a `save_topics_to_db` run the valid clusters
are ordered by member count descending (a stable sort; the quality score
is a single per-run silhouette, so there is no per-cluster quality
tie-break) and only the top `n_topics` clusters are persisted, the k-th
persisted topic receiving the non-null rank `k`; valid clusters beyond the
top `n_topics` are discarded entirely — every inserted mapping row comes
from a kept cluster. -/
theorem c4_amended_top_n_ranked_rest_discarded {d : ℕ} (p : ClustererParams)
    (db : DBState d) (articles : List (ClusterArticle d)) (labels : List ℤ)
    (date : ℤ) (silhouette : ℝ) (titles : ℤ → Option String) (now : ℤ)
    (startId : ℕ)
    (hvalid : (validClusters p articles labels).isEmpty = false) :
    (((save_topics_to_db p db articles labels date silhouette titles now startId
        none).1.topics.filter fun t => decide (t.date = date)).map (·.rank) =
      (List.range (sortedClusters p articles labels).length).map fun i => some (i + 1)) ∧
    ((sortedClusters p articles labels).length =
      min p.nTopics (validClusters p articles labels).length) ∧
    List.Sorted bySizeDesc ((validClusters p articles labels).insertionSort bySizeDesc) ∧
    (sortedClusters p articles labels =
      ((validClusters p articles labels).insertionSort bySizeDesc).take p.nTopics) ∧
    (∀ m ∈ newMappingRows p articles labels date silhouette titles now startId,
      ∃ c ∈ sortedClusters p articles labels, ∃ a ∈ c.2, m.articleId = a.articleId) := by
  have hc := save_commit_eq p db articles labels date silhouette titles now startId hvalid
  refine ⟨?_, ?_, ?_, rfl, ?_⟩
  · rw [hc]
    show (((db.topics.filter fun t => decide ¬(t.date = date)) ++
      newTopicRows p articles labels date silhouette titles now startId).filter
        (fun t => decide (t.date = date))).map (·.rank) = _
    rw [List.filter_append]
    have h1 : (db.topics.filter fun t => decide ¬(t.date = date)).filter
        (fun t => decide (t.date = date)) = [] := by
      rw [List.filter_eq_nil_iff]
      intro t ht
      have := (List.mem_filter.mp ht).2
      simp only [decide_eq_true_eq] at this
      simp [this]
    have h2 : (newTopicRows p articles labels date silhouette titles now startId).filter
        (fun t => decide (t.date = date)) =
        newTopicRows p articles labels date silhouette titles now startId := by
      rw [List.filter_eq_self]
      intro t ht
      unfold newTopicRows at ht
      obtain ⟨ic, -, hic⟩ := List.mem_map.mp ht
      rw [← hic]
      show decide ((buildTopic date silhouette titles now (startId + ic.1) (ic.1 + 1)
        ic.2).1.date = date) = true
      rw [decide_eq_true_eq]
      rfl
    rw [h1, h2, List.nil_append]
    unfold newTopicRows
    rw [List.map_map]
    have h3 : ((fun t : TopicRow d => t.rank) ∘ fun ic : ℕ × ℤ × List (ClusterArticle d) =>
        (buildTopic date silhouette titles now (startId + ic.1) (ic.1 + 1) ic.2).1) =
        (fun i => some (i + 1)) ∘ Prod.fst := rfl
    rw [h3, ← List.map_map, List.enum_map_fst]
  · unfold sortedClusters
    rw [List.length_take, (List.perm_insertionSort bySizeDesc
      (validClusters p articles labels)).length_eq]
  · exact List.sorted_insertionSort bySizeDesc (validClusters p articles labels)
  · intro m hm
    unfold newMappingRows at hm
    obtain ⟨ic, hic, hmem⟩ := List.mem_flatMap.mp hm
    refine ⟨ic.2, ?_, ?_⟩
    · exact List.snd_mem_of_mem_enum hic
    · unfold buildTopic at hmem
      obtain ⟨s, hs, hsm⟩ := List.mem_map.mp hmem
      unfold calculate_similarity_scores at hs
      obtain ⟨a, ha, has⟩ := List.mem_map.mp hs
      refine ⟨a, ha, ?_⟩
      rw [← hsm, ← has]

/-- Witness for C4 (amended) at a concrete input: with `n_topics = 1` and
the two valid clusters of `articlesC4`, exactly one topic is persisted for
the date and it carries rank 1. -/
theorem c4_witness :
    ((save_topics_to_db ⟨1, 1⟩ dbEmpty2 articlesC4 [0, 0, 1] 0 0 (fun _ => none) 0 50
      none).1.topics.filter fun t => decide (t.date = 0)).map (·.rank) = [some 1] := by
  have h := (c4_amended_top_n_ranked_rest_discarded ⟨1, 1⟩ dbEmpty2 articlesC4 [0, 0, 1]
    0 0 (fun _ => none) 0 50 (by decide)).1
  rw [h]
  rw [show (sortedClusters ⟨1, 1⟩ articlesC4 [0, 0, 1]).length = 1 from by decide]
  decide

/-! ### Claim C8 -/

theorem buildTopic_mapping_topicId {d : ℕ} (date : ℤ) (silhouette : ℝ)
    (titles : ℤ → Option String) (now : ℤ) (tid rank : ℕ)
    (c : ℤ × List (ClusterArticle d)) :
    ∀ m ∈ (buildTopic date silhouette titles now tid rank c).2, m.topicId = tid := by
  intro m hm
  unfold buildTopic at hm
  obtain ⟨s, -, hs⟩ := List.mem_map.mp hm
  rw [← hs]

theorem fst_le_of_mem_enumFrom {α : Type _} :
    ∀ (l : List α) (n : ℕ) (x : ℕ × α), x ∈ l.enumFrom n → n ≤ x.1 := by
  intro l
  induction l with
  | nil => intro n x h; exact absurd h (List.not_mem_nil x)
  | cons a tl ih =>
    intro n x hx
    rw [List.enumFrom_cons] at hx
    rcases List.mem_cons.mp hx with rfl | hmem
    · exact le_refl n
    · exact le_trans (Nat.le_succ n) (ih (n + 1) x hmem)

/-- Filtering the inserted mapping rows by one of the new topic ids
recovers exactly that topic's block. -/
theorem filter_enumFrom_blocks {d : ℕ} (date : ℤ) (silhouette : ℝ)
    (titles : ℤ → Option String) (now : ℤ) (startId : ℕ) :
    ∀ (sc : List (ℤ × List (ClusterArticle d))) (n : ℕ)
      (ic : ℕ × ℤ × List (ClusterArticle d)), ic ∈ sc.enumFrom n →
      (((sc.enumFrom n).flatMap fun jc =>
          (buildTopic date silhouette titles now (startId + jc.1) (jc.1 + 1) jc.2).2).filter
        fun m => decide (m.topicId = startId + ic.1)) =
      (buildTopic date silhouette titles now (startId + ic.1) (ic.1 + 1) ic.2).2 := by
  intro sc
  induction sc with
  | nil =>
    intro n ic h
    rw [List.enumFrom_nil] at h
    exact absurd h (List.not_mem_nil ic)
  | cons c tl ih =>
    intro n ic hic
    rw [List.enumFrom_cons] at hic ⊢
    rw [List.flatMap_cons, List.filter_append]
    rcases List.mem_cons.mp hic with rfl | hmem
    · have hhead : ((buildTopic date silhouette titles now (startId + n) (n + 1) c).2.filter
          fun m => decide (m.topicId = startId + n)) =
          (buildTopic date silhouette titles now (startId + n) (n + 1) c).2 := by
        rw [List.filter_eq_self]
        intro m hm
        exact decide_eq_true (buildTopic_mapping_topicId date silhouette titles now
          (startId + n) (n + 1) c m hm)
      have htail : (((tl.enumFrom (n + 1)).flatMap fun jc =>
          (buildTopic date silhouette titles now (startId + jc.1) (jc.1 + 1) jc.2).2).filter
            fun m => decide (m.topicId = startId + n)) = [] := by
        rw [List.filter_eq_nil_iff]
        intro m hm
        obtain ⟨jc, hjc, hmjc⟩ := List.mem_flatMap.mp hm
        have h1 := buildTopic_mapping_topicId date silhouette titles now
          (startId + jc.1) (jc.1 + 1) jc.2 m hmjc
        have h2 := fst_le_of_mem_enumFrom tl (n + 1) jc hjc
        simp only [decide_eq_true_eq]
        omega
      rw [hhead, htail, List.append_nil]
    · have hhead : ((buildTopic date silhouette titles now (startId + n) (n + 1) c).2.filter
          fun m => decide (m.topicId = startId + ic.1)) = [] := by
        rw [List.filter_eq_nil_iff]
        intro m hm
        have h1 := buildTopic_mapping_topicId date silhouette titles now
          (startId + n) (n + 1) c m hm
        have h2 := fst_le_of_mem_enumFrom tl (n + 1) ic hmem
        simp only [decide_eq_true_eq]
        omega
      rw [hhead, List.nil_append]
      exact ih (n + 1) ic hmem

/-! ### Claim C8 -/

/-- **C8** (code bug on the incremental half).  Batch half: immediately
after a `save_topics_to_db` commit, each new topic stores as centroid
exactly the re-normalized mean of its cluster's member embeddings, and
the mapping rows carrying its topic id are exactly its cluster's members.
Incremental half: the centroid update the claim attributes to
`IncrementalAssigner` cannot occur — `update_topic_centroids` raises
`NameError` at its opening `with get_db_connection()` (the name is never
imported in `incremental_assignment.py`) and returns with the database
unchanged, so the assigner never writes any centroid, full recompute or
otherwise. -/
theorem c8_batch_centroid_exact_assigner_never_writes :
    (∀ (d : ℕ) (p : ClustererParams) (db : DBState d)
      (articles : List (ClusterArticle d)) (labels : List ℤ) (date : ℤ)
      (silhouette : ℝ) (titles : ℤ → Option String) (now : ℤ) (startId : ℕ),
      (validClusters p articles labels).isEmpty = false →
      (∀ m ∈ db.mappings, m.topicId < startId) →
      ∀ ic ∈ (sortedClusters p articles labels).enum,
        ∃ t ∈ (save_topics_to_db p db articles labels date silhouette titles now startId
            none).1.topics,
          t.topicId = startId + ic.1 ∧
          t.centroid = some (divNorm (meanV (ic.2.2.map (·.emb)))) ∧
          (((save_topics_to_db p db articles labels date silhouette titles now startId
              none).1.mappings.filter fun m =>
                decide (m.topicId = startId + ic.1)).map (·.articleId) =
            ic.2.2.map (·.articleId))) ∧
    (∀ (d : ℕ) (db : DBState d) (topicIds : List ℕ),
      update_topic_centroids db topicIds = (db, .nameError "get_db_connection")) := by
  constructor
  · intro d p db articles labels date silhouette titles now startId hvalid hfresh ic hic
    have hc := save_commit_eq p db articles labels date silhouette titles now startId hvalid
    refine ⟨(buildTopic date silhouette titles now (startId + ic.1) (ic.1 + 1) ic.2).1,
      ?_, rfl, rfl, ?_⟩
    · rw [hc]
      apply List.mem_append_right
      unfold newTopicRows
      exact List.mem_map.mpr ⟨ic, hic, rfl⟩
    · rw [hc]
      show ((((db.mappings.filter _) ++
        newMappingRows p articles labels date silhouette titles now startId).filter
          fun m => decide (m.topicId = startId + ic.1)).map (·.articleId)) = _
      rw [List.filter_append]
      have hold : (db.mappings.filter fun m =>
          decide ¬(m.topicId ∈ (db.topics.filter fun t =>
            decide (t.date = date)).map (·.topicId))).filter
          (fun m => decide (m.topicId = startId + ic.1)) = [] := by
        rw [List.filter_eq_nil_iff]
        intro m hm
        have hmem := (List.mem_filter.mp hm).1
        have := hfresh m hmem
        simp only [decide_eq_true_eq]
        omega
      have hnew : (newMappingRows p articles labels date silhouette titles now
          startId).filter (fun m => decide (m.topicId = startId + ic.1)) =
          (buildTopic date silhouette titles now (startId + ic.1) (ic.1 + 1) ic.2).2 := by
        unfold newMappingRows
        exact filter_enumFrom_blocks date silhouette titles now startId
          (sortedClusters p articles labels) 0 ic hic
      rw [hold, hnew, List.nil_append]
      unfold buildTopic calculate_similarity_scores
      rw [List.map_map, List.map_map]
      rfl
  · intro d db topicIds
    rfl

set_option maxHeartbeats 1000000 in
/-- Witness for C8 on a concrete batch run: the single persisted topic of
`articlesC4` (topic id 50) stores the re-normalized mean of its two
members' embeddings and has exactly those members mapped. -/
theorem c8_witness :
    ∃ t ∈ (save_topics_to_db ⟨1, 1⟩ dbEmpty2 articlesC4 [0, 0, 1] 0 0 (fun _ => none) 0 50
        none).1.topics,
      t.topicId = 50 + 0 ∧
      t.centroid = some (divNorm (meanV (([⟨1, "a", ![1, 0]⟩,
        ⟨2, "b", ![1, 0]⟩] : List (ClusterArticle 2)).map (·.emb)))) ∧
      (((save_topics_to_db ⟨1, 1⟩ dbEmpty2 articlesC4 [0, 0, 1] 0 0 (fun _ => none) 0 50
          none).1.mappings.filter fun m => decide (m.topicId = 50 + 0)).map (·.articleId) =
        ([⟨1, "a", ![1, 0]⟩, ⟨2, "b", ![1, 0]⟩] : List (ClusterArticle 2)).map
          (·.articleId)) := by
  have h := c8_batch_centroid_exact_assigner_never_writes.1 2 ⟨1, 1⟩ dbEmpty2 articlesC4
    [0, 0, 1] 0 0 (fun _ => none) 0 50 (by decide)
    (by
      intro m hm
      exact absurd hm (List.not_mem_nil m))
    (0, ((0 : ℤ), ([⟨1, "a", ![1, 0]⟩, ⟨2, "b", ![1, 0]⟩] : List (ClusterArticle 2))))
    (by
      show (0, ((0 : ℤ), ([⟨1, "a", ![1, 0]⟩, ⟨2, "b", ![1, 0]⟩] :
        List (ClusterArticle 2)))) ∈
        [(0, ((0 : ℤ), ([⟨1, "a", ![1, 0]⟩, ⟨2, "b", ![1, 0]⟩] :
          List (ClusterArticle 2))))]
      exact List.mem_singleton_self _)
  exact h

/-! ### Claim C9 -/

/-- **C9** (code bug).  No `IncrementalAssigner` run can write at all, so
the scenario the claim describes — a completed first run followed by a
completed, effect-free second run — cannot execute.  First conjunct:
every run returns the database unchanged.  On the concrete `db9` state
(one embedded, unmapped article and no active topic) the first run
reaches `add_to_pending(..., 'no_topics', 0.0)`, which raises `NameError`
at the unimported `get_db_connection`; the run aborts without creating
the pending row, and the immediately following second run aborts the same
way.  Only a run that finds no new articles (`dbEmpty2`) completes, and
it performs no writes either. -/
theorem c9_no_run_ever_writes :
    (∀ (d : ℕ) (threshold : ℝ) (db : DBState d) (date now sinceMinutes : ℤ),
      (run_incremental_assignment threshold db date now sinceMinutes).1 = db) ∧
    run_incremental_assignment (1/2 : ℝ) db9 0 10 30 =
      (db9, .error (.nameError "get_db_connection")) ∧
    run_incremental_assignment (1/2 : ℝ)
        (run_incremental_assignment (1/2 : ℝ) db9 0 10 30).1 0 11 30 =
      (db9, .error (.nameError "get_db_connection")) ∧
    run_incremental_assignment (1/2 : ℝ) dbEmpty2 0 10 30 =
      (dbEmpty2, .ok ⟨0, 0, 0⟩) := by
  refine ⟨?_, rfl, rfl, rfl⟩
  intro d threshold db date now sinceMinutes
  unfold run_incremental_assignment
  by_cases h : (get_new_articles db now sinceMinutes).isEmpty = true
  · rw [if_pos h]
  · rw [if_neg h]

/-! ### Claim C7 -/

/-- **C7.** Every enrichment batch task that completes normally with at
least one successful article (success or partial failure), was given its
target date, and can reach Redis performs exactly one atomic increment of
the completed counter for that date. -/
theorem c7_batch_completion_single_increment
    (articleIds : List ℕ) (valid : ℕ → Bool) (aiOutcome : Except Unit (List ResultItem))
    (dateD : ℤ) (firstArticleDate : ℕ → Option ℤ) (stats : BatchStats)
    (hok : (process_articles_batch articleIds valid aiOutcome true
        (some dateD) firstArticleDate).1 = .ok stats)
    (hsucc : 1 ≤ stats.successful) :
    (process_articles_batch articleIds valid aiOutcome true
        (some dateD) firstArticleDate).2 = 1 := by
  unfold process_articles_batch at hok ⊢
  by_cases hlen : 50 < articleIds.length
  · rw [if_pos hlen] at hok
    simp only [Except.ok.injEq] at hok
    rw [← hok] at hsucc
    simp at hsucc
  · rw [if_neg hlen] at hok ⊢
    by_cases hempty : (articleIds.filter valid).isEmpty
    · rw [if_pos hempty] at hok
      simp only [Except.ok.injEq] at hok
      rw [← hok] at hsucc
      simp at hsucc
    · rw [if_neg hempty] at hok ⊢
      match aiOutcome with
      | .error _ => simp at hok
      | .ok results => simp

/-- Witness for C7: a one-article batch whose AI call succeeded and whose
result was saved performs exactly one increment. -/
theorem c7_witness :
    (process_articles_batch [1] (fun _ => true) (.ok [⟨1, false, true, false⟩]) true
        (some 0) (fun _ => none)).2 = 1 := by
  refine c7_batch_completion_single_increment [1] (fun _ => true)
    (.ok [⟨1, false, true, false⟩]) 0 (fun _ => none) ⟨"success", 1, 1, 0⟩ ?_ ?_
  · rfl
  · norm_num

/-! ### Claim C6: the batch-completion coordinator -/

namespace Coordinator

theorem filter_update_congr {N : ℕ} (f : Fin N → ProcState) (p : Fin N) (v : ProcState)
    (P : ProcState → Prop) [DecidablePred P] (h : P v ↔ P (f p)) :
    (Finset.univ.filter fun q => P (Function.update f p v q)) =
      Finset.univ.filter fun q => P (f q) := by
  apply Finset.filter_congr
  intro q _
  rcases eq_or_ne q p with rfl | hne
  · rw [Function.update_same]
    exact h
  · rw [Function.update_noteq hne]

theorem filter_update_insert {N : ℕ} (f : Fin N → ProcState) (p : Fin N) (v : ProcState)
    (P : ProcState → Prop) [DecidablePred P] (hv : P v) (hp : ¬ P (f p)) :
    (Finset.univ.filter fun q => P (Function.update f p v q)) =
      insert p (Finset.univ.filter fun q => P (f q)) := by
  ext q
  simp only [Finset.mem_filter, Finset.mem_univ, true_and, Finset.mem_insert]
  rcases eq_or_ne q p with rfl | hne
  · rw [Function.update_same]
    simp [hv]
  · rw [Function.update_noteq hne]
    constructor
    · intro h
      exact Or.inr h
    · rintro (h | h)
      · exact absurd h hne
      · exact h

theorem card_filter_update_insert {N : ℕ} (f : Fin N → ProcState) (p : Fin N)
    (v : ProcState) (P : ProcState → Prop) [DecidablePred P] (hv : P v)
    (hp : ¬ P (f p)) :
    (Finset.univ.filter fun q => P (Function.update f p v q)).card =
      (Finset.univ.filter fun q => P (f q)).card + 1 := by
  rw [filter_update_insert f p v P hv hp]
  rw [Finset.card_insert_of_not_mem]
  intro hmem
  exact hp (Finset.mem_filter.mp hmem).2

theorem exists_pred_update_iff {N : ℕ} (f : Fin N → ProcState) (p : Fin N)
    (v : ProcState) (P : ProcState → Prop) (h : P v ↔ P (f p)) :
    (∃ q, P (Function.update f p v q)) ↔ ∃ q, P (f q) := by
  constructor
  · rintro ⟨q, hq⟩
    rcases eq_or_ne q p with rfl | hne
    · rw [Function.update_same] at hq
      exact ⟨q, h.mp hq⟩
    · rw [Function.update_noteq hne] at hq
      exact ⟨q, hq⟩
  · rintro ⟨q, hq⟩
    rcases eq_or_ne q p with rfl | hne
    · refine ⟨q, ?_⟩
      rw [Function.update_same]
      exact h.mpr hq
    · refine ⟨q, ?_⟩
      rw [Function.update_noteq hne]
      exact hq

theorem coordInv_mk {N : ℕ} (r : RedisState) (f : Fin N → ProcState) (sch : List ℕ)
    (pc_le : ∀ p, (f p).pc ≤ 6)
    (total_cases : r.total = some N ∨ r.total = none)
    (total_none_iff : r.total = none ↔ ∃ p, (f p).pc = 5)
    (completed_eq : (¬ ∃ p, 4 ≤ (f p).pc ∧ (f p).pc ≤ 5) →
      r.completed =
        (if (Finset.univ.filter fun q => 1 ≤ (f q).pc).card = 0 then none
          else some (Finset.univ.filter fun q => 1 ≤ (f q).pc).card))
    (completed_deleted : (∃ p, 4 ≤ (f p).pc ∧ (f p).pc ≤ 5) → r.completed = none)
    (local_bounds : ∀ p, 1 ≤ (f p).pc → 1 ≤ (f p).localCompleted ∧
      (f p).localCompleted ≤ (Finset.univ.filter fun q => 1 ≤ (f q).pc).card)
    (local_inj : ∀ p q, 1 ≤ (f p).pc → 1 ≤ (f q).pc → p ≠ q →
      (f p).localCompleted ≠ (f q).localCompleted)
    (trig_spec : ∀ p, 3 ≤ (f p).pc → (f p).pc ≤ 5 →
      (f p).localCompleted = N ∧ ∀ q, 1 ≤ (f q).pc)
    (localTotal_cases : ∀ p, 2 ≤ (f p).pc →
      (f p).localTotal = some N ∨ (f p).localTotal = none)
    (localTotal_none : ∀ p, 2 ≤ (f p).pc → (f p).localTotal = none →
      ∃ q, (f q).pc = 5)
    (pc6_reason : ∀ p, (f p).pc = 6 → (f p).localTotal = none ∨
      ∃ t, (f p).localTotal = some t ∧ (f p).localCompleted < t)
    (sched_eq : sch = List.replicate
      ((Finset.univ.filter fun q => 3 ≤ (f q).pc ∧ (f q).pc ≤ 5)).card 60) :
    CoordInv N ⟨r, f, sch⟩ :=
  ⟨pc_le, total_cases, total_none_iff, completed_eq, completed_deleted, local_bounds,
    local_inj, trig_spec, localTotal_cases, localTotal_none, pc6_reason, sched_eq⟩

theorem incremented_card_le {N : ℕ} (s : CoordState N) : (incremented s).card ≤ N := by
  unfold incremented
  calc (Finset.univ.filter fun p => 1 ≤ (s.procs p).pc).card ≤ Finset.univ.card :=
        Finset.card_filter_le _ _
    _ = N := by rw [Finset.card_univ, Fintype.card_fin]

theorem coordInv_init (N : ℕ) : CoordInv N (initState N) := by
  have hinc : incremented (initState N) = ∅ := by
    unfold incremented initState
    apply Finset.filter_false_of_mem
    intro p _
    norm_num
  have htrig : triggeredSet (initState N) = ∅ := by
    unfold triggeredSet initState
    apply Finset.filter_false_of_mem
    intro p _
    norm_num
  refine ⟨?_, ?_, ?_, ?_, ?_, ?_, ?_, ?_, ?_, ?_, ?_, ?_⟩
  · intro p
    norm_num [initState]
  · exact Or.inl rfl
  · constructor
    · intro h
      simp [initState] at h
    · rintro ⟨p, hp⟩
      simp [initState] at hp
  · intro _
    rw [hinc]
    rfl
  · rintro ⟨p, hp, -⟩
    simp [initState] at hp
  · intro p hp
    simp [initState] at hp
  · intro p q hp _ _
    simp [initState] at hp
  · intro p hp _
    simp [initState] at hp
  · intro p hp
    simp [initState] at hp
  · intro p hp
    simp [initState] at hp
  · intro p hp
    simp [initState] at hp
  · rw [htrig]
    rfl

theorem procStep_of_ge5 {N : ℕ} (s : CoordState N) (p : Fin N)
    (h5 : (s.procs p).pc = 5 ∨ (s.procs p).pc = 6) : procStep s p = s := by
  rcases h5 with h | h
  · simp [procStep, h]
  · simp [procStep, h]

theorem coordInv_step_incr {N : ℕ} {s : CoordState N} (inv : CoordInv N s) (p : Fin N)
    (h0 : (s.procs p).pc = 0) : CoordInv N (procStep s p) := by
  have hno3 : ∀ q, ¬(3 ≤ (s.procs q).pc ∧ (s.procs q).pc ≤ 5) := by
    rintro q ⟨hq3, hq5⟩
    have hall := (inv.trig_spec q hq3 hq5).2 p
    omega
  have hno45 : ¬ ∃ q, 4 ≤ (s.procs q).pc ∧ (s.procs q).pc ≤ 5 := by
    rintro ⟨q, hq4, hq5⟩
    exact hno3 q ⟨by omega, hq5⟩
  have hcomp := inv.completed_eq hno45
  have hstep : procStep s p =
      ⟨⟨some (s.redis.completed.getD 0 + 1), s.redis.total⟩,
        Function.update s.procs p
          ⟨1, s.redis.completed.getD 0 + 1, (s.procs p).localTotal⟩,
        s.scheduled⟩ := by
    simp only [procStep, h0]
    rfl
  rw [hstep]
  have hDcard : (Finset.univ.filter fun q => 1 ≤ (Function.update s.procs p
        ⟨1, s.redis.completed.getD 0 + 1, (s.procs p).localTotal⟩ q).pc).card =
      (incremented s).card + 1 :=
    card_filter_update_insert s.procs p
      ⟨1, s.redis.completed.getD 0 + 1, (s.procs p).localTotal⟩
      (fun ps => 1 ≤ ps.pc) (Nat.le_refl 1)
      (by show ¬ 1 ≤ (s.procs p).pc
          omega)
  have hTrig : (Finset.univ.filter fun q =>
        3 ≤ (Function.update s.procs p
          ⟨1, s.redis.completed.getD 0 + 1, (s.procs p).localTotal⟩ q).pc ∧
        (Function.update s.procs p
          ⟨1, s.redis.completed.getD 0 + 1, (s.procs p).localTotal⟩ q).pc ≤ 5) =
      triggeredSet s :=
    filter_update_congr s.procs p
      ⟨1, s.redis.completed.getD 0 + 1, (s.procs p).localTotal⟩
      (fun ps => 3 ≤ ps.pc ∧ ps.pc ≤ 5)
      (iff_of_false (by show ¬(3 ≤ 1 ∧ 1 ≤ 5); omega) (hno3 p))
  refine coordInv_mk _ _ _ ?_ ?_ ?_ ?_ ?_ ?_ ?_ ?_ ?_ ?_ ?_ ?_
  · intro q
    rcases eq_or_ne q p with rfl | hne
    · rw [Function.update_same]
      show (1:ℕ) ≤ 6
      omega
    · rw [Function.update_noteq hne]
      exact inv.pc_le q
  · exact inv.total_cases
  · rw [show (⟨some (s.redis.completed.getD 0 + 1), s.redis.total⟩ : RedisState).total =
      s.redis.total from rfl, inv.total_none_iff]
    exact (exists_pred_update_iff s.procs p
      ⟨1, s.redis.completed.getD 0 + 1, (s.procs p).localTotal⟩ (fun ps => ps.pc = 5)
      (iff_of_false (by show ¬(1 = 5); omega) (by omega))).symm
  · intro _
    show some (s.redis.completed.getD 0 + 1) = _
    rw [hDcard]
    rw [hcomp]
    by_cases hz : (incremented s).card = 0
    · rw [if_pos hz, if_neg (by omega), show (incremented s).card = 0 from hz]
      rfl
    · rw [if_neg hz, if_neg (by omega)]
      rfl
  · rintro ⟨q, hq4, hq5⟩
    exfalso
    rcases eq_or_ne q p with rfl | hne
    · rw [Function.update_same] at hq4
      have hq4x : (4:ℕ) ≤ 1 := hq4
      omega
    · rw [Function.update_noteq hne] at hq4 hq5
      exact hno3 q ⟨by omega, hq5⟩
  · intro q hq
    rw [hDcard]
    rcases eq_or_ne q p with rfl | hne
    · rw [Function.update_same] at hq ⊢
      refine ⟨?_, ?_⟩
      · show 1 ≤ s.redis.completed.getD 0 + 1
        omega
      · show s.redis.completed.getD 0 + 1 ≤ _
        rw [hcomp]
        by_cases hz : (incremented s).card = 0
        · rw [if_pos hz]
          show 0 + 1 ≤ _
          omega
        · rw [if_neg hz]
          show (incremented s).card + 1 ≤ _
          omega
    · rw [Function.update_noteq hne] at hq ⊢
      have := inv.local_bounds q hq
      constructor
      · exact this.1
      · calc (s.procs q).localCompleted ≤ (incremented s).card := this.2
          _ ≤ (incremented s).card + 1 := Nat.le_succ _
  · intro q r hq hr hqr
    rcases eq_or_ne q p with rfl | hq'
    · rcases eq_or_ne r q with rfl | hr'
      · exact absurd rfl hqr
      · rw [Function.update_same]
        rw [Function.update_noteq hr'] at hr ⊢
        show s.redis.completed.getD 0 + 1 ≠ _
        have hb := inv.local_bounds r hr
        rw [hcomp]
        by_cases hz : (incremented s).card = 0
        · rw [if_pos hz]
          show 0 + 1 ≠ _
          omega
        · rw [if_neg hz]
          show (incremented s).card + 1 ≠ _
          omega
    · rcases eq_or_ne r p with rfl | hr'
      · rw [Function.update_same]
        rw [Function.update_noteq hq'] at hq ⊢
        show _ ≠ s.redis.completed.getD 0 + 1
        have hb := inv.local_bounds q hq
        rw [hcomp]
        by_cases hz : (incremented s).card = 0
        · rw [if_pos hz]
          show _ ≠ 0 + 1
          omega
        · rw [if_neg hz]
          show _ ≠ (incremented s).card + 1
          omega
      · rw [Function.update_noteq hq'] at hq ⊢
        rw [Function.update_noteq hr'] at hr ⊢
        exact inv.local_inj q r hq hr hqr
  · intro q hq3 hq5
    exfalso
    rcases eq_or_ne q p with rfl | hne
    · rw [Function.update_same] at hq3
      have hq3x : (3:ℕ) ≤ 1 := hq3
      omega
    · rw [Function.update_noteq hne] at hq3 hq5
      exact hno3 q ⟨hq3, hq5⟩
  · intro q hq
    rcases eq_or_ne q p with rfl | hne
    · rw [Function.update_same] at hq
      have hqx : (2:ℕ) ≤ 1 := hq
      omega
    · rw [Function.update_noteq hne] at hq ⊢
      exact inv.localTotal_cases q hq
  · intro q hq hnone
    rcases eq_or_ne q p with rfl | hne
    · rw [Function.update_same] at hq
      have hqx : (2:ℕ) ≤ 1 := hq
      omega
    · rw [Function.update_noteq hne] at hq hnone
      obtain ⟨r, hr⟩ := inv.localTotal_none q hq hnone
      refine ⟨r, ?_⟩
      rcases eq_or_ne r p with rfl | hre
      · omega
      · rw [Function.update_noteq hre]
        exact hr
  · intro q hq
    rcases eq_or_ne q p with rfl | hne
    · rw [Function.update_same] at hq
      have hqx : (1:ℕ) = 6 := hq
      omega
    · rw [Function.update_noteq hne] at hq ⊢
      exact inv.pc6_reason q hq
  · show s.scheduled = _
    rw [hTrig]
    exact inv.sched_eq

theorem coordInv_step_read {N : ℕ} {s : CoordState N} (inv : CoordInv N s) (p : Fin N)
    (h1 : (s.procs p).pc = 1) : CoordInv N (procStep s p) := by
  have hstep : procStep s p =
      ⟨s.redis,
        Function.update s.procs p
          ⟨2, (s.procs p).localCompleted, s.redis.total⟩,
        s.scheduled⟩ := by
    simp only [procStep, h1]
  rw [hstep]
  have hD : (Finset.univ.filter fun q => 1 ≤ (Function.update s.procs p
        ⟨2, (s.procs p).localCompleted, s.redis.total⟩ q).pc) = incremented s :=
    filter_update_congr s.procs p
      ⟨2, (s.procs p).localCompleted, s.redis.total⟩ (fun ps => 1 ≤ ps.pc)
      (iff_of_true (by show (1:ℕ) ≤ 2; omega) (by show 1 ≤ (s.procs p).pc; omega))
  have hTrig : (Finset.univ.filter fun q =>
        3 ≤ (Function.update s.procs p
          ⟨2, (s.procs p).localCompleted, s.redis.total⟩ q).pc ∧
        (Function.update s.procs p
          ⟨2, (s.procs p).localCompleted, s.redis.total⟩ q).pc ≤ 5) =
      triggeredSet s :=
    filter_update_congr s.procs p
      ⟨2, (s.procs p).localCompleted, s.redis.total⟩
      (fun ps => 3 ≤ ps.pc ∧ ps.pc ≤ 5)
      (iff_of_false (by show ¬(3 ≤ 2 ∧ 2 ≤ 5); omega)
        (by show ¬(3 ≤ (s.procs p).pc ∧ (s.procs p).pc ≤ 5); omega))
  refine coordInv_mk _ _ _ ?_ ?_ ?_ ?_ ?_ ?_ ?_ ?_ ?_ ?_ ?_ ?_
  · intro q
    rcases eq_or_ne q p with rfl | hne
    · rw [Function.update_same]
      show (2:ℕ) ≤ 6
      omega
    · rw [Function.update_noteq hne]
      exact inv.pc_le q
  · exact inv.total_cases
  · rw [show (⟨s.redis.completed, s.redis.total⟩ : RedisState).total = s.redis.total from
      rfl]
    rw [inv.total_none_iff]
    exact (exists_pred_update_iff s.procs p
      ⟨2, (s.procs p).localCompleted, s.redis.total⟩ (fun ps => ps.pc = 5)
      (iff_of_false (by show ¬(2 = 5); omega)
        (by show ¬((s.procs p).pc = 5); omega))).symm
  · intro hnew
    rw [hD]
    apply inv.completed_eq
    rintro ⟨q, hq4, hq5⟩
    have hqp : q ≠ p := by
      intro he
      rw [he, h1] at hq4
      omega
    apply hnew
    refine ⟨q, ?_, ?_⟩
    · rw [Function.update_noteq hqp]
      exact hq4
    · rw [Function.update_noteq hqp]
      exact hq5
  · rintro ⟨q, hq4, hq5⟩
    rcases eq_or_ne q p with rfl | hne
    · rw [Function.update_same] at hq4
      exact absurd (show (4:ℕ) ≤ 2 from hq4) (by omega)
    · rw [Function.update_noteq hne] at hq4 hq5
      exact inv.completed_deleted ⟨q, hq4, hq5⟩
  · intro q hq
    rw [hD]
    rcases eq_or_ne q p with rfl | hne
    · rw [Function.update_same]
      exact inv.local_bounds q (by omega)
    · rw [Function.update_noteq hne] at hq ⊢
      exact inv.local_bounds q hq
  · intro q r hq hr hqr
    rcases eq_or_ne q p with rfl | hq'
    · rcases eq_or_ne r q with rfl | hr'
      · exact absurd rfl hqr
      · rw [Function.update_same]
        rw [Function.update_noteq hr'] at hr ⊢
        show (s.procs q).localCompleted ≠ (s.procs r).localCompleted
        exact inv.local_inj q r (by omega) hr hqr
    · rcases eq_or_ne r p with rfl | hr'
      · rw [Function.update_same]
        rw [Function.update_noteq hq'] at hq ⊢
        show (s.procs q).localCompleted ≠ (s.procs r).localCompleted
        exact inv.local_inj q r hq (by omega) hqr
      · rw [Function.update_noteq hq'] at hq ⊢
        rw [Function.update_noteq hr'] at hr ⊢
        exact inv.local_inj q r hq hr hqr
  · intro q hq3 hq5
    rcases eq_or_ne q p with rfl | hne
    · rw [Function.update_same] at hq3
      exact absurd (show (3:ℕ) ≤ 2 from hq3) (by omega)
    · rw [Function.update_noteq hne] at hq3 hq5
      obtain ⟨hN, hall⟩ := inv.trig_spec q hq3 hq5
      rw [Function.update_noteq hne]
      refine ⟨hN, ?_⟩
      intro r
      rcases eq_or_ne r p with rfl | hre
      · rw [Function.update_same]
        show (1:ℕ) ≤ 2
        omega
      · rw [Function.update_noteq hre]
        exact hall r
  · intro q hq
    rcases eq_or_ne q p with rfl | hne
    · rw [Function.update_same]
      exact inv.total_cases
    · rw [Function.update_noteq hne] at hq ⊢
      exact inv.localTotal_cases q hq
  · intro q hq hnone
    rcases eq_or_ne q p with rfl | hne
    · rw [Function.update_same] at hnone
      have hto : s.redis.total = none := hnone
      obtain ⟨r, hr⟩ := inv.total_none_iff.mp hto
      have hrp : r ≠ q := by
        intro he
        rw [he, h1] at hr
        omega
      refine ⟨r, ?_⟩
      rw [Function.update_noteq hrp]
      exact hr
    · rw [Function.update_noteq hne] at hq hnone
      obtain ⟨r, hr⟩ := inv.localTotal_none q hq hnone
      have hrp : r ≠ p := by
        intro he
        rw [he, h1] at hr
        omega
      refine ⟨r, ?_⟩
      rw [Function.update_noteq hrp]
      exact hr
  · intro q hq
    rcases eq_or_ne q p with rfl | hne
    · rw [Function.update_same] at hq
      exact absurd (show (2:ℕ) = 6 from hq) (by omega)
    · rw [Function.update_noteq hne] at hq ⊢
      exact inv.pc6_reason q hq
  · show s.scheduled = _
    rw [hTrig]
    exact inv.sched_eq

theorem coordInv_step_trigger {N : ℕ} {s : CoordState N} (inv : CoordInv N s) (p : Fin N)
    (h2 : (s.procs p).pc = 2) (ht : (s.procs p).localTotal = some N)
    (hle : N ≤ (s.procs p).localCompleted) : CoordInv N (procStep s p) := by
  have hstep : procStep s p =
      ⟨s.redis,
        Function.update s.procs p
          ⟨3, (s.procs p).localCompleted, (s.procs p).localTotal⟩,
        s.scheduled ++ [60]⟩ := by
    simp only [procStep, h2, ht]
    rw [if_pos hle]
  have hbound := inv.local_bounds p (by omega)
  have hcardle := incremented_card_le s
  have hlcN : (s.procs p).localCompleted = N := by omega
  have hcardN : (incremented s).card = N := by omega
  have hall : ∀ q, 1 ≤ (s.procs q).pc := by
    intro q
    have huniv : incremented s = Finset.univ :=
      Finset.eq_univ_of_card _ (by rw [hcardN, Fintype.card_fin])
    have hmem : q ∈ incremented s := huniv ▸ Finset.mem_univ q
    exact (Finset.mem_filter.mp hmem).2
  rw [hstep]
  have hD : (Finset.univ.filter fun q => 1 ≤ (Function.update s.procs p
        ⟨3, (s.procs p).localCompleted, (s.procs p).localTotal⟩ q).pc) =
      incremented s :=
    filter_update_congr s.procs p
      ⟨3, (s.procs p).localCompleted, (s.procs p).localTotal⟩ (fun ps => 1 ≤ ps.pc)
      (iff_of_true (by show (1:ℕ) ≤ 3; omega) (by show 1 ≤ (s.procs p).pc; omega))
  have hTrigCard : (Finset.univ.filter fun q =>
        3 ≤ (Function.update s.procs p
          ⟨3, (s.procs p).localCompleted, (s.procs p).localTotal⟩ q).pc ∧
        (Function.update s.procs p
          ⟨3, (s.procs p).localCompleted, (s.procs p).localTotal⟩ q).pc ≤ 5).card =
      (triggeredSet s).card + 1 :=
    card_filter_update_insert s.procs p
      ⟨3, (s.procs p).localCompleted, (s.procs p).localTotal⟩
      (fun ps => 3 ≤ ps.pc ∧ ps.pc ≤ 5)
      (by show 3 ≤ 3 ∧ 3 ≤ 5; omega)
      (by show ¬(3 ≤ (s.procs p).pc ∧ (s.procs p).pc ≤ 5); omega)
  refine coordInv_mk _ _ _ ?_ ?_ ?_ ?_ ?_ ?_ ?_ ?_ ?_ ?_ ?_ ?_
  · intro q
    rcases eq_or_ne q p with rfl | hne
    · rw [Function.update_same]
      show (3:ℕ) ≤ 6
      omega
    · rw [Function.update_noteq hne]
      exact inv.pc_le q
  · exact inv.total_cases
  · rw [show (⟨s.redis.completed, s.redis.total⟩ : RedisState).total = s.redis.total from
      rfl]
    rw [inv.total_none_iff]
    exact (exists_pred_update_iff s.procs p
      ⟨3, (s.procs p).localCompleted, (s.procs p).localTotal⟩ (fun ps => ps.pc = 5)
      (iff_of_false (by show ¬(3 = 5); omega)
        (by show ¬((s.procs p).pc = 5); omega))).symm
  · intro hnew
    rw [hD]
    apply inv.completed_eq
    rintro ⟨q, hq4, hq5⟩
    have hqp : q ≠ p := by
      intro he
      rw [he, h2] at hq4
      omega
    apply hnew
    refine ⟨q, ?_, ?_⟩
    · rw [Function.update_noteq hqp]
      exact hq4
    · rw [Function.update_noteq hqp]
      exact hq5
  · rintro ⟨q, hq4, hq5⟩
    rcases eq_or_ne q p with rfl | hne
    · rw [Function.update_same] at hq4
      exact absurd (show (4:ℕ) ≤ 3 from hq4) (by omega)
    · rw [Function.update_noteq hne] at hq4 hq5
      exact inv.completed_deleted ⟨q, hq4, hq5⟩
  · intro q hq
    rw [hD]
    rcases eq_or_ne q p with rfl | hne
    · rw [Function.update_same]
      exact inv.local_bounds q (by omega)
    · rw [Function.update_noteq hne] at hq ⊢
      exact inv.local_bounds q hq
  · intro q r hq hr hqr
    rcases eq_or_ne q p with rfl | hq'
    · rcases eq_or_ne r q with rfl | hr'
      · exact absurd rfl hqr
      · rw [Function.update_same]
        rw [Function.update_noteq hr'] at hr ⊢
        show (s.procs q).localCompleted ≠ (s.procs r).localCompleted
        exact inv.local_inj q r (by omega) hr hqr
    · rcases eq_or_ne r p with rfl | hr'
      · rw [Function.update_same]
        rw [Function.update_noteq hq'] at hq ⊢
        show (s.procs q).localCompleted ≠ (s.procs r).localCompleted
        exact inv.local_inj q r hq (by omega) hqr
      · rw [Function.update_noteq hq'] at hq ⊢
        rw [Function.update_noteq hr'] at hr ⊢
        exact inv.local_inj q r hq hr hqr
  · intro q hq3 hq5
    rcases eq_or_ne q p with rfl | hne
    · rw [Function.update_same]
      refine ⟨hlcN, ?_⟩
      intro r
      rcases eq_or_ne r q with rfl | hre
      · rw [Function.update_same]
        show (1:ℕ) ≤ 3
        omega
      · rw [Function.update_noteq hre]
        exact hall r
    · rw [Function.update_noteq hne] at hq3 hq5 ⊢
      obtain ⟨hN, -⟩ := inv.trig_spec q hq3 hq5
      refine ⟨hN, ?_⟩
      intro r
      rcases eq_or_ne r p with rfl | hre
      · rw [Function.update_same]
        show (1:ℕ) ≤ 3
        omega
      · rw [Function.update_noteq hre]
        exact hall r
  · intro q hq
    rcases eq_or_ne q p with rfl | hne
    · rw [Function.update_same]
      exact inv.localTotal_cases q (by omega)
    · rw [Function.update_noteq hne] at hq ⊢
      exact inv.localTotal_cases q hq
  · intro q hq hnone
    rcases eq_or_ne q p with rfl | hne
    · rw [Function.update_same] at hnone
      have hx : (s.procs q).localTotal = none := hnone
      rw [ht] at hx
      simp at hx
    · rw [Function.update_noteq hne] at hq hnone
      obtain ⟨r, hr⟩ := inv.localTotal_none q hq hnone
      have hrp : r ≠ p := by
        intro he
        rw [he, h2] at hr
        omega
      refine ⟨r, ?_⟩
      rw [Function.update_noteq hrp]
      exact hr
  · intro q hq
    rcases eq_or_ne q p with rfl | hne
    · rw [Function.update_same] at hq
      exact absurd (show (3:ℕ) = 6 from hq) (by omega)
    · rw [Function.update_noteq hne] at hq ⊢
      exact inv.pc6_reason q hq
  · show s.scheduled ++ [60] = _
    rw [hTrigCard, List.replicate_succ', inv.sched_eq]

theorem coordInv_step_fail {N : ℕ} {s : CoordState N} (inv : CoordInv N s) (p : Fin N)
    (h2 : (s.procs p).pc = 2)
    (hreason : (s.procs p).localTotal = none ∨
      ∃ t, (s.procs p).localTotal = some t ∧ (s.procs p).localCompleted < t) :
    CoordInv N ⟨s.redis,
      Function.update s.procs p
        ⟨6, (s.procs p).localCompleted, (s.procs p).localTotal⟩,
      s.scheduled⟩ := by
  have hD : (Finset.univ.filter fun q => 1 ≤ (Function.update s.procs p
        ⟨6, (s.procs p).localCompleted, (s.procs p).localTotal⟩ q).pc) =
      incremented s :=
    filter_update_congr s.procs p
      ⟨6, (s.procs p).localCompleted, (s.procs p).localTotal⟩ (fun ps => 1 ≤ ps.pc)
      (iff_of_true (by show (1:ℕ) ≤ 6; omega) (by show 1 ≤ (s.procs p).pc; omega))
  have hTrig : (Finset.univ.filter fun q =>
        3 ≤ (Function.update s.procs p
          ⟨6, (s.procs p).localCompleted, (s.procs p).localTotal⟩ q).pc ∧
        (Function.update s.procs p
          ⟨6, (s.procs p).localCompleted, (s.procs p).localTotal⟩ q).pc ≤ 5) =
      triggeredSet s :=
    filter_update_congr s.procs p
      ⟨6, (s.procs p).localCompleted, (s.procs p).localTotal⟩
      (fun ps => 3 ≤ ps.pc ∧ ps.pc ≤ 5)
      (iff_of_false (by show ¬(3 ≤ 6 ∧ 6 ≤ 5); omega)
        (by show ¬(3 ≤ (s.procs p).pc ∧ (s.procs p).pc ≤ 5); omega))
  refine coordInv_mk _ _ _ ?_ ?_ ?_ ?_ ?_ ?_ ?_ ?_ ?_ ?_ ?_ ?_
  · intro q
    rcases eq_or_ne q p with rfl | hne
    · rw [Function.update_same]
    · rw [Function.update_noteq hne]
      exact inv.pc_le q
  · exact inv.total_cases
  · rw [show (⟨s.redis.completed, s.redis.total⟩ : RedisState).total = s.redis.total from
      rfl]
    rw [inv.total_none_iff]
    exact (exists_pred_update_iff s.procs p
      ⟨6, (s.procs p).localCompleted, (s.procs p).localTotal⟩ (fun ps => ps.pc = 5)
      (iff_of_false (by show ¬(6 = 5); omega)
        (by show ¬((s.procs p).pc = 5); omega))).symm
  · intro hnew
    rw [hD]
    apply inv.completed_eq
    rintro ⟨q, hq4, hq5⟩
    have hqp : q ≠ p := by
      intro he
      rw [he, h2] at hq4
      omega
    apply hnew
    refine ⟨q, ?_, ?_⟩
    · rw [Function.update_noteq hqp]
      exact hq4
    · rw [Function.update_noteq hqp]
      exact hq5
  · rintro ⟨q, hq4, hq5⟩
    rcases eq_or_ne q p with rfl | hne
    · rw [Function.update_same] at hq5
      exact absurd (show (6:ℕ) ≤ 5 from hq5) (by omega)
    · rw [Function.update_noteq hne] at hq4 hq5
      exact inv.completed_deleted ⟨q, hq4, hq5⟩
  · intro q hq
    rw [hD]
    rcases eq_or_ne q p with rfl | hne
    · rw [Function.update_same]
      exact inv.local_bounds q (by omega)
    · rw [Function.update_noteq hne] at hq ⊢
      exact inv.local_bounds q hq
  · intro q r hq hr hqr
    rcases eq_or_ne q p with rfl | hq'
    · rcases eq_or_ne r q with rfl | hr'
      · exact absurd rfl hqr
      · rw [Function.update_same]
        rw [Function.update_noteq hr'] at hr ⊢
        show (s.procs q).localCompleted ≠ (s.procs r).localCompleted
        exact inv.local_inj q r (by omega) hr hqr
    · rcases eq_or_ne r p with rfl | hr'
      · rw [Function.update_same]
        rw [Function.update_noteq hq'] at hq ⊢
        show (s.procs q).localCompleted ≠ (s.procs r).localCompleted
        exact inv.local_inj q r hq (by omega) hqr
      · rw [Function.update_noteq hq'] at hq ⊢
        rw [Function.update_noteq hr'] at hr ⊢
        exact inv.local_inj q r hq hr hqr
  · intro q hq3 hq5
    rcases eq_or_ne q p with rfl | hne
    · rw [Function.update_same] at hq5
      exact absurd (show (6:ℕ) ≤ 5 from hq5) (by omega)
    · rw [Function.update_noteq hne] at hq3 hq5 ⊢
      obtain ⟨hN, hall⟩ := inv.trig_spec q hq3 hq5
      refine ⟨hN, ?_⟩
      intro r
      rcases eq_or_ne r p with rfl | hre
      · rw [Function.update_same]
        show (1:ℕ) ≤ 6
        omega
      · rw [Function.update_noteq hre]
        exact hall r
  · intro q hq
    rcases eq_or_ne q p with rfl | hne
    · rw [Function.update_same]
      exact inv.localTotal_cases q (by omega)
    · rw [Function.update_noteq hne] at hq ⊢
      exact inv.localTotal_cases q hq
  · intro q hq hnone
    rcases eq_or_ne q p with rfl | hne
    · rw [Function.update_same] at hnone
      obtain ⟨r, hr⟩ := inv.localTotal_none q (by omega) hnone
      have hrp : r ≠ q := by
        intro he
        rw [he, h2] at hr
        omega
      refine ⟨r, ?_⟩
      rw [Function.update_noteq hrp]
      exact hr
    · rw [Function.update_noteq hne] at hq hnone
      obtain ⟨r, hr⟩ := inv.localTotal_none q hq hnone
      have hrp : r ≠ p := by
        intro he
        rw [he, h2] at hr
        omega
      refine ⟨r, ?_⟩
      rw [Function.update_noteq hrp]
      exact hr
  · intro q hq
    rcases eq_or_ne q p with rfl | hne
    · rw [Function.update_same]
      exact hreason
    · rw [Function.update_noteq hne] at hq ⊢
      exact inv.pc6_reason q hq
  · show s.scheduled = _
    rw [hTrig]
    exact inv.sched_eq

theorem coordInv_step_delCompleted {N : ℕ} {s : CoordState N} (inv : CoordInv N s)
    (p : Fin N) (h3 : (s.procs p).pc = 3) : CoordInv N (procStep s p) := by
  have hstep : procStep s p =
      ⟨⟨none, s.redis.total⟩,
        Function.update s.procs p
          ⟨4, (s.procs p).localCompleted, (s.procs p).localTotal⟩,
        s.scheduled⟩ := by
    simp only [procStep, h3]
  obtain ⟨hN, hall⟩ := inv.trig_spec p (by omega) (by omega)
  rw [hstep]
  have hD : (Finset.univ.filter fun q => 1 ≤ (Function.update s.procs p
        ⟨4, (s.procs p).localCompleted, (s.procs p).localTotal⟩ q).pc) =
      incremented s :=
    filter_update_congr s.procs p
      ⟨4, (s.procs p).localCompleted, (s.procs p).localTotal⟩ (fun ps => 1 ≤ ps.pc)
      (iff_of_true (by show (1:ℕ) ≤ 4; omega) (by show 1 ≤ (s.procs p).pc; omega))
  have hTrig : (Finset.univ.filter fun q =>
        3 ≤ (Function.update s.procs p
          ⟨4, (s.procs p).localCompleted, (s.procs p).localTotal⟩ q).pc ∧
        (Function.update s.procs p
          ⟨4, (s.procs p).localCompleted, (s.procs p).localTotal⟩ q).pc ≤ 5) =
      triggeredSet s :=
    filter_update_congr s.procs p
      ⟨4, (s.procs p).localCompleted, (s.procs p).localTotal⟩
      (fun ps => 3 ≤ ps.pc ∧ ps.pc ≤ 5)
      (iff_of_true (by show 3 ≤ 4 ∧ 4 ≤ 5; omega)
        (by show 3 ≤ (s.procs p).pc ∧ (s.procs p).pc ≤ 5; omega))
  refine coordInv_mk _ _ _ ?_ ?_ ?_ ?_ ?_ ?_ ?_ ?_ ?_ ?_ ?_ ?_
  · intro q
    rcases eq_or_ne q p with rfl | hne
    · rw [Function.update_same]
      show (4:ℕ) ≤ 6
      omega
    · rw [Function.update_noteq hne]
      exact inv.pc_le q
  · exact inv.total_cases
  · rw [show (⟨none, s.redis.total⟩ : RedisState).total = s.redis.total from rfl]
    rw [inv.total_none_iff]
    exact (exists_pred_update_iff s.procs p
      ⟨4, (s.procs p).localCompleted, (s.procs p).localTotal⟩ (fun ps => ps.pc = 5)
      (iff_of_false (by show ¬(4 = 5); omega)
        (by show ¬((s.procs p).pc = 5); omega))).symm
  · intro hnew
    exfalso
    apply hnew
    refine ⟨p, ?_, ?_⟩
    · rw [Function.update_same]
    · rw [Function.update_same]
      show (4:ℕ) ≤ 5
      omega
  · intro _
    rfl
  · intro q hq
    rw [hD]
    rcases eq_or_ne q p with rfl | hne
    · rw [Function.update_same]
      exact inv.local_bounds q (by omega)
    · rw [Function.update_noteq hne] at hq ⊢
      exact inv.local_bounds q hq
  · intro q r hq hr hqr
    rcases eq_or_ne q p with rfl | hq'
    · rcases eq_or_ne r q with rfl | hr'
      · exact absurd rfl hqr
      · rw [Function.update_same]
        rw [Function.update_noteq hr'] at hr ⊢
        show (s.procs q).localCompleted ≠ (s.procs r).localCompleted
        exact inv.local_inj q r (by omega) hr hqr
    · rcases eq_or_ne r p with rfl | hr'
      · rw [Function.update_same]
        rw [Function.update_noteq hq'] at hq ⊢
        show (s.procs q).localCompleted ≠ (s.procs r).localCompleted
        exact inv.local_inj q r hq (by omega) hqr
      · rw [Function.update_noteq hq'] at hq ⊢
        rw [Function.update_noteq hr'] at hr ⊢
        exact inv.local_inj q r hq hr hqr
  · intro q hq3 hq5
    rcases eq_or_ne q p with rfl | hne
    · rw [Function.update_same]
      refine ⟨hN, ?_⟩
      intro r
      rcases eq_or_ne r q with rfl | hre
      · rw [Function.update_same]
        show (1:ℕ) ≤ 4
        omega
      · rw [Function.update_noteq hre]
        exact hall r
    · rw [Function.update_noteq hne] at hq3 hq5 ⊢
      obtain ⟨hNq, -⟩ := inv.trig_spec q hq3 hq5
      refine ⟨hNq, ?_⟩
      intro r
      rcases eq_or_ne r p with rfl | hre
      · rw [Function.update_same]
        show (1:ℕ) ≤ 4
        omega
      · rw [Function.update_noteq hre]
        exact hall r
  · intro q hq
    rcases eq_or_ne q p with rfl | hne
    · rw [Function.update_same]
      exact inv.localTotal_cases q (by omega)
    · rw [Function.update_noteq hne] at hq ⊢
      exact inv.localTotal_cases q hq
  · intro q hq hnone
    rcases eq_or_ne q p with rfl | hne
    · rw [Function.update_same] at hnone
      obtain ⟨r, hr⟩ := inv.localTotal_none q (by omega) hnone
      have hrp : r ≠ q := by
        intro he
        rw [he, h3] at hr
        omega
      refine ⟨r, ?_⟩
      rw [Function.update_noteq hrp]
      exact hr
    · rw [Function.update_noteq hne] at hq hnone
      obtain ⟨r, hr⟩ := inv.localTotal_none q hq hnone
      have hrp : r ≠ p := by
        intro he
        rw [he, h3] at hr
        omega
      refine ⟨r, ?_⟩
      rw [Function.update_noteq hrp]
      exact hr
  · intro q hq
    rcases eq_or_ne q p with rfl | hne
    · rw [Function.update_same] at hq
      exact absurd (show (4:ℕ) = 6 from hq) (by omega)
    · rw [Function.update_noteq hne] at hq ⊢
      exact inv.pc6_reason q hq
  · show s.scheduled = _
    rw [hTrig]
    exact inv.sched_eq

theorem coordInv_step_delTotal {N : ℕ} {s : CoordState N} (inv : CoordInv N s)
    (p : Fin N) (h4 : (s.procs p).pc = 4) : CoordInv N (procStep s p) := by
  have hstep : procStep s p =
      ⟨⟨s.redis.completed, none⟩,
        Function.update s.procs p
          ⟨5, (s.procs p).localCompleted, (s.procs p).localTotal⟩,
        s.scheduled⟩ := by
    simp only [procStep, h4]
  obtain ⟨hN, hall⟩ := inv.trig_spec p (by omega) (by omega)
  have hdel : s.redis.completed = none :=
    inv.completed_deleted ⟨p, by omega, by omega⟩
  rw [hstep]
  have hD : (Finset.univ.filter fun q => 1 ≤ (Function.update s.procs p
        ⟨5, (s.procs p).localCompleted, (s.procs p).localTotal⟩ q).pc) =
      incremented s :=
    filter_update_congr s.procs p
      ⟨5, (s.procs p).localCompleted, (s.procs p).localTotal⟩ (fun ps => 1 ≤ ps.pc)
      (iff_of_true (by show (1:ℕ) ≤ 5; omega) (by show 1 ≤ (s.procs p).pc; omega))
  have hTrig : (Finset.univ.filter fun q =>
        3 ≤ (Function.update s.procs p
          ⟨5, (s.procs p).localCompleted, (s.procs p).localTotal⟩ q).pc ∧
        (Function.update s.procs p
          ⟨5, (s.procs p).localCompleted, (s.procs p).localTotal⟩ q).pc ≤ 5) =
      triggeredSet s :=
    filter_update_congr s.procs p
      ⟨5, (s.procs p).localCompleted, (s.procs p).localTotal⟩
      (fun ps => 3 ≤ ps.pc ∧ ps.pc ≤ 5)
      (iff_of_true (by show 3 ≤ 5 ∧ 5 ≤ 5; omega)
        (by show 3 ≤ (s.procs p).pc ∧ (s.procs p).pc ≤ 5; omega))
  refine coordInv_mk _ _ _ ?_ ?_ ?_ ?_ ?_ ?_ ?_ ?_ ?_ ?_ ?_ ?_
  · intro q
    rcases eq_or_ne q p with rfl | hne
    · rw [Function.update_same]
      show (5:ℕ) ≤ 6
      omega
    · rw [Function.update_noteq hne]
      exact inv.pc_le q
  · exact Or.inr rfl
  · refine iff_of_true rfl ⟨p, ?_⟩
    rw [Function.update_same]
  · intro hnew
    exfalso
    apply hnew
    refine ⟨p, ?_, ?_⟩
    · rw [Function.update_same]
      show (4:ℕ) ≤ 5
      omega
    · rw [Function.update_same]
  · intro _
    show s.redis.completed = none
    exact hdel
  · intro q hq
    rw [hD]
    rcases eq_or_ne q p with rfl | hne
    · rw [Function.update_same]
      exact inv.local_bounds q (by omega)
    · rw [Function.update_noteq hne] at hq ⊢
      exact inv.local_bounds q hq
  · intro q r hq hr hqr
    rcases eq_or_ne q p with rfl | hq'
    · rcases eq_or_ne r q with rfl | hr'
      · exact absurd rfl hqr
      · rw [Function.update_same]
        rw [Function.update_noteq hr'] at hr ⊢
        show (s.procs q).localCompleted ≠ (s.procs r).localCompleted
        exact inv.local_inj q r (by omega) hr hqr
    · rcases eq_or_ne r p with rfl | hr'
      · rw [Function.update_same]
        rw [Function.update_noteq hq'] at hq ⊢
        show (s.procs q).localCompleted ≠ (s.procs r).localCompleted
        exact inv.local_inj q r hq (by omega) hqr
      · rw [Function.update_noteq hq'] at hq ⊢
        rw [Function.update_noteq hr'] at hr ⊢
        exact inv.local_inj q r hq hr hqr
  · intro q hq3 hq5
    rcases eq_or_ne q p with rfl | hne
    · rw [Function.update_same]
      refine ⟨hN, ?_⟩
      intro r
      rcases eq_or_ne r q with rfl | hre
      · rw [Function.update_same]
        show (1:ℕ) ≤ 5
        omega
      · rw [Function.update_noteq hre]
        exact hall r
    · rw [Function.update_noteq hne] at hq3 hq5 ⊢
      obtain ⟨hNq, -⟩ := inv.trig_spec q hq3 hq5
      refine ⟨hNq, ?_⟩
      intro r
      rcases eq_or_ne r p with rfl | hre
      · rw [Function.update_same]
        show (1:ℕ) ≤ 5
        omega
      · rw [Function.update_noteq hre]
        exact hall r
  · intro q hq
    rcases eq_or_ne q p with rfl | hne
    · rw [Function.update_same]
      exact inv.localTotal_cases q (by omega)
    · rw [Function.update_noteq hne] at hq ⊢
      exact inv.localTotal_cases q hq
  · intro q hq hnone
    refine ⟨p, ?_⟩
    rw [Function.update_same]
  · intro q hq
    rcases eq_or_ne q p with rfl | hne
    · rw [Function.update_same] at hq
      exact absurd (show (5:ℕ) = 6 from hq) (by omega)
    · rw [Function.update_noteq hne] at hq ⊢
      exact inv.pc6_reason q hq
  · show s.scheduled = _
    rw [hTrig]
    exact inv.sched_eq

theorem coordInv_step {N : ℕ} {s : CoordState N} (inv : CoordInv N s) (p : Fin N) :
    CoordInv N (procStep s p) := by
  have h6 := inv.pc_le p
  by_cases h0 : (s.procs p).pc = 0
  · exact coordInv_step_incr inv p h0
  by_cases h1 : (s.procs p).pc = 1
  · exact coordInv_step_read inv p h1
  by_cases h2 : (s.procs p).pc = 2
  · rcases hlt : (s.procs p).localTotal with _ | t
    · have hstep : procStep s p =
          ⟨s.redis,
            Function.update s.procs p
              ⟨6, (s.procs p).localCompleted, (s.procs p).localTotal⟩,
            s.scheduled⟩ := by
        simp only [procStep, h2, hlt]
      rw [hstep]
      exact coordInv_step_fail inv p h2 (Or.inl hlt)
    · have htN : t = N := by
        rcases inv.localTotal_cases p (by omega) with h | h
        · rw [hlt] at h
          exact Option.some.inj h
        · rw [hlt] at h
          simp at h
      subst htN
      by_cases hle : t ≤ (s.procs p).localCompleted
      · exact coordInv_step_trigger inv p h2 hlt hle
      · have hstep : procStep s p =
            ⟨s.redis,
              Function.update s.procs p
                ⟨6, (s.procs p).localCompleted, (s.procs p).localTotal⟩,
              s.scheduled⟩ := by
          simp only [procStep, h2, hlt]
          rw [if_neg hle]
        rw [hstep]
        exact coordInv_step_fail inv p h2 (Or.inr ⟨t, hlt, by omega⟩)
  by_cases h3 : (s.procs p).pc = 3
  · exact coordInv_step_delCompleted inv p h3
  by_cases h4 : (s.procs p).pc = 4
  · exact coordInv_step_delTotal inv p h4
  rw [procStep_of_ge5 s p (by omega)]
  exact inv

theorem coordInv_foldl {N : ℕ} (sched : List (Fin N)) (s : CoordState N)
    (inv : CoordInv N s) : CoordInv N (sched.foldl procStep s) := by
  induction sched generalizing s with
  | nil => exact inv
  | cons p rest ih => exact ih _ (coordInv_step inv p)

theorem coordInv_run {N : ℕ} (sched : List (Fin N)) : CoordInv N (runSchedule sched) :=
  coordInv_foldl sched _ (coordInv_init N)

end Coordinator

/-- **C6.**  For every execution of the coordinator protocol in which the
total counter is initialised to `N` and the `N` batch workers each run
their increment-check-trigger section to completion, in any interleaving
of the workers' atomic steps: exactly one worker observes
`completed ≥ total` (it ends at program counter 5, every other worker ends
at 6), exactly one delayed `BatchClusterer` invocation is scheduled (one
entry with the fixed 60-second countdown), and afterwards both Redis
counters have been deleted. -/
theorem c6_coordinator_exactly_one_trigger (N : ℕ) (hN : 1 ≤ N)
    (sched : List (Fin N))
    (hfin : ∀ q, Coordinator.finished ((Coordinator.runSchedule sched).procs q)) :
    (Finset.univ.filter fun q =>
        ((Coordinator.runSchedule sched).procs q).pc = 5).card = 1 ∧
      (Coordinator.runSchedule sched).scheduled = [60] ∧
      (Coordinator.runSchedule sched).redis.completed = none ∧
      (Coordinator.runSchedule sched).redis.total = none := by
  have inv := Coordinator.coordInv_run sched
  have h5ex : ∃ q, ((Coordinator.runSchedule sched).procs q).pc = 5 := by
    by_contra hno
    push_neg at hno
    have hall6 : ∀ q, ((Coordinator.runSchedule sched).procs q).pc = 6 := by
      intro q
      rcases hfin q with h | h
      · exact absurd h (hno q)
      · exact h
    have hb : ∀ q, 1 ≤ ((Coordinator.runSchedule sched).procs q).localCompleted ∧
        ((Coordinator.runSchedule sched).procs q).localCompleted ≤ N := by
      intro q
      have h1 := inv.local_bounds q (by rw [hall6 q]; omega)
      exact ⟨h1.1, le_trans h1.2 (Coordinator.incremented_card_le _)⟩
    have hginj : Function.Injective (fun q : Fin N =>
        (⟨((Coordinator.runSchedule sched).procs q).localCompleted - 1, by
          have := hb q
          omega⟩ : Fin N)) := by
      intro a b hab
      by_contra hne
      have hv : ((Coordinator.runSchedule sched).procs a).localCompleted - 1 =
          ((Coordinator.runSchedule sched).procs b).localCompleted - 1 :=
        congrArg Fin.val hab
      have ha := hb a
      have hbb := hb b
      have hinj := inv.local_inj a b (by rw [hall6 a]; omega) (by rw [hall6 b]; omega)
        hne
      omega
    have hgsurj := Finite.injective_iff_surjective.mp hginj
    obtain ⟨q, hq⟩ := hgsurj ⟨N - 1, by omega⟩
    have hv : ((Coordinator.runSchedule sched).procs q).localCompleted - 1 = N - 1 :=
      congrArg Fin.val hq
    have hbq := hb q
    have hlcq : ((Coordinator.runSchedule sched).procs q).localCompleted = N := by
      omega
    rcases inv.pc6_reason q (hall6 q) with hnone | ⟨t, hsome, hlt⟩
    · obtain ⟨r, hr⟩ := inv.localTotal_none q (by rw [hall6 q]; omega) hnone
      exact hno r hr
    · rcases inv.localTotal_cases q (by rw [hall6 q]; omega) with hsN | hsN
      · rw [hsome] at hsN
        have ht := Option.some.inj hsN
        omega
      · rw [hsome] at hsN
        simp at hsN
  obtain ⟨w, hw⟩ := h5ex
  have huniq : ∀ q, ((Coordinator.runSchedule sched).procs q).pc = 5 → q = w := by
    intro q hq
    by_contra hne
    have h1 := (inv.trig_spec q (by omega) (by omega)).1
    have h2 := (inv.trig_spec w (by omega) (by omega)).1
    exact inv.local_inj q w (by omega) (by omega) hne (by rw [h1, h2])
  have hfilter : (Finset.univ.filter fun q =>
      ((Coordinator.runSchedule sched).procs q).pc = 5) = {w} := by
    ext q
    simp only [Finset.mem_filter, Finset.mem_univ, true_and, Finset.mem_singleton]
    constructor
    · exact huniq q
    · rintro rfl
      exact hw
  have htrig : Coordinator.triggeredSet (Coordinator.runSchedule sched) = {w} := by
    ext q
    simp only [Coordinator.triggeredSet, Finset.mem_filter, Finset.mem_univ, true_and,
      Finset.mem_singleton]
    constructor
    · rintro ⟨h3, h5⟩
      apply huniq
      rcases hfin q with h | h
      · exact h
      · omega
    · rintro rfl
      omega
  refine ⟨?_, ?_, ?_, ?_⟩
  · rw [hfilter]
    exact Finset.card_singleton w
  · rw [inv.sched_eq, htrig, Finset.card_singleton]
    rfl
  · exact inv.completed_deleted ⟨w, by omega, by omega⟩
  · exact inv.total_none_iff.mpr ⟨w, hw⟩

/-- Witness for C6 at `N = 2`: worker 0 increments, reads `total = 2` and
fails the check (its increment produced 1), worker 1 increments to 2,
passes the check, schedules the clustering call and deletes both keys. -/
theorem c6_witness :
    ((1 ≤ 2) ∧ (∀ q : Fin 2,
        ((Coordinator.runSchedule [0, 0, 0, 1, 1, 1, 1, 1]).procs q).pc = 5 ∨
        ((Coordinator.runSchedule [0, 0, 0, 1, 1, 1, 1, 1]).procs q).pc = 6)) ∧
      ((Finset.univ.filter fun q =>
          ((Coordinator.runSchedule ([0, 0, 0, 1, 1, 1, 1, 1] :
            List (Fin 2))).procs q).pc = 5).card = 1 ∧
        (Coordinator.runSchedule ([0, 0, 0, 1, 1, 1, 1, 1] :
          List (Fin 2))).scheduled = [60] ∧
        (Coordinator.runSchedule ([0, 0, 0, 1, 1, 1, 1, 1] :
          List (Fin 2))).redis.completed = none ∧
        (Coordinator.runSchedule ([0, 0, 0, 1, 1, 1, 1, 1] :
          List (Fin 2))).redis.total = none) :=
  ⟨⟨by omega, by decide⟩,
    c6_coordinator_exactly_one_trigger 2 (by omega) [0, 0, 0, 1, 1, 1, 1, 1]
      (show ∀ q : Fin 2,
          ((Coordinator.runSchedule [0, 0, 0, 1, 1, 1, 1, 1]).procs q).pc = 5 ∨
          ((Coordinator.runSchedule [0, 0, 0, 1, 1, 1, 1, 1]).procs q).pc = 6 by
        decide)⟩

end

end Spec2Proof
